import Mathlib

/-!
# Verification of the MLX image resampling backend

A shallow embedding of `src/keras/backend/mlx/image.py`: the boundary index
fixers, the nearest/linear interpolation kernels, the cartesian gather /
weighted-sum resampler (`_extract_coordinates`), and the public operations
`map_coordinates`, `affine_transform`, `resize`.

Modelling conventions:

* Tensor element values are modelled as exact rationals (`ℚ`); the float
  tensors of the runtime are treated as exact real arithmetic, which is the
  scope at which the specification describes the numeric semantics.
* All tensor operations in the source are elementwise up to broadcasting
  (broadcasting itself belongs to the external array runtime), so the
  resampling engine is modelled per output element: each coordinate axis
  contributes one scalar coordinate for the element under consideration.
  The `_expand` reshape in the source exists only to make broadcasting
  line up and has no per-element effect.
* Integer tensor arithmetic uses `ℤ`.  The MLX `%` on integer tensors is the
  sign-of-divisor remainder, which for a positive divisor agrees with Lean's
  `Int.emod`; for divisor `0` the model inherits Lean's `a % 0 = a`, which
  coincides with the non-trapping behaviour of integer division on the
  hardware the backend targets (the quotient is `0`, so the remainder is the
  dividend).  `mx.floor_divide` is `Int.fdiv`.
* Dtypes are carried explicitly because `_is_integer` drives the rounding
  step and the fill-value coercion.  Dtype promotion of the array runtime is
  modelled up to the integer/float distinction, which is all `_is_integer`
  observes (the precise width promotion is the external runtime's business).
* `mx.round` is the runtime's numpy-compatible rint: round half to even.
* Out-of-bounds gather indices are undefined behaviour in the array runtime
  (MLX performs no bounds checking), so the whole-tensor operations return a
  distinguished `undefined` result whenever any gathered index is outside its
  axis; raised `ValueError` / `NotImplementedError` are the `invalidArgument`
  / `notSupported` error kinds.
* The `start_axis` parameter of `_extract_coordinates` is `0` at every call
  site in the file and is therefore omitted from the model.
-/

/-- The MLX element dtypes that appear in `to_mlx_dtype`. -/
inductive MxDtype where
  | int8 | int16 | int32 | int64
  | uint8 | uint16 | uint32 | uint64
  | float16 | float32 | bfloat16 | boolean
deriving DecidableEq, Repr

/-- `_is_integer`, as a predicate on the dtype: membership in the eight
integer dtypes (bool is deliberately not included, as in the source). -/
def MxDtype.isInteger : MxDtype → Bool
  | .int8 | .int16 | .int32 | .int64 => true
  | .uint8 | .uint16 | .uint32 | .uint64 => true
  | _ => false

/-- Dtype promotion of the array runtime, modelled up to the integer/float
distinction (which is all `_is_integer` observes): two integer dtypes promote
to an integer dtype, anything involving a float dtype promotes to a float
dtype. -/
def promoteDtype (a b : MxDtype) : MxDtype :=
  if a.isInteger then (if b.isInteger then a else b) else a

/-- One tensor element: its dtype together with its exact value. -/
structure MxScalar where
  dtype : MxDtype
  val : ℚ
deriving DecidableEq, Repr

/-- A Python scalar argument (`fill_value` is an `int` or `float` scalar). -/
inductive PyScalar where
  | pyInt (n : ℤ)
  | pyFloat (q : ℚ)
deriving DecidableEq, Repr

/-- Numeric value of a Python scalar. -/
def PyScalar.val : PyScalar → ℚ
  | .pyInt n => n
  | .pyFloat q => q

/-- Truncation toward zero: Python's `int(...)` on a float, and the value
part of casting a float tensor to an integer dtype. -/
def ratTrunc (q : ℚ) : ℤ := if 0 ≤ q then ⌊q⌋ else -⌊-q⌋

/-- Python's `int(fill_value)`. -/
def PyScalar.toPyInt : PyScalar → PyScalar
  | .pyInt n => .pyInt n
  | .pyFloat q => .pyInt (ratTrunc q)

/-- `mx.round`: round half to even (numpy-compatible rint). -/
def rint (q : ℚ) : ℤ :=
  let n := ⌊q⌋
  if q - n < 1/2 then n
  else if (1 : ℚ)/2 < q - n then n + 1
  else if 2 ∣ n then n else n + 1

/-- `result.astype(dtype)`: casting to an integer dtype truncates the value
toward zero, casting to a float dtype keeps the (exact) value. -/
def astype (d : MxDtype) (s : MxScalar) : MxScalar :=
  ⟨d, if d.isInteger then (ratTrunc s.val : ℚ) else s.val⟩

/-- `mx.clip(index, lo, hi)`. -/
def clip (index lo hi : ℤ) : ℤ := min (max index lo) hi

/-- `_mirror_index_fixer`: with `s = size - 1` the half-wavelength, the
triangular wave `abs((index + s) % (2 * s) - s)`. -/
def mirror_index_fixer (index size : ℤ) : ℤ :=
  |((index + (size - 1)) % (2 * (size - 1))) - (size - 1)|

/-- `_reflect_index_fixer`: `floor_divide(mirror(2*index + 1, 2*size + 1) - 1, 2)`. -/
def reflect_index_fixer (index size : ℤ) : ℤ :=
  Int.fdiv (mirror_index_fixer (2 * index + 1) (2 * size + 1) - 1) 2

/-- The `_INDEX_FIXERS` dictionary: fill-mode name to index fixer. -/
def INDEX_FIXERS (mode : String) : Option (ℤ → ℤ → ℤ) :=
  if mode = "constant" then some fun index size => clip index 0 (size - 1)
  else if mode = "nearest" then some fun index size => clip index 0 (size - 1)
  else if mode = "wrap" then some fun index size => index % size
  else if mode = "mirror" then some mirror_index_fixer
  else if mode = "reflect" then some reflect_index_fixer
  else none

/-- Per-axis interpolation weights.  `pyOne` is the Python scalar `1` used by
the nearest kernel (recognised by the `weight == 1` skip in the resampler);
`arr` is a weight tensor element with its dtype. -/
inductive Weight where
  | pyOne
  | arr (d : MxDtype) (v : ℚ)
deriving DecidableEq, Repr

/-- Numeric value of a weight. -/
def Weight.val : Weight → ℚ
  | .pyOne => 1
  | .arr _ v => v

/-- `operator.mul` on weights.  Multiplying by the Python scalar `1` leaves
an array weight unchanged (weak scalar promotion keeps the array dtype). -/
def Weight.mul : Weight → Weight → Weight
  | .pyOne, w => w
  | .arr d v, .pyOne => .arr d v
  | .arr d v, .arr e w => .arr (promoteDtype d e) (v * w)

/-- `functools.reduce(operator.mul, weights)` (the weight list is never
empty at the call site; the `[]` case is unreachable). -/
def reduceMulW : List Weight → Weight
  | [] => .pyOne
  | w :: ws => ws.foldl Weight.mul w

/-- `functools.reduce(operator.and_, validities)` (never called on `[]`). -/
def reduceAnd : List Bool → Bool
  | [] => true
  | b :: bs => bs.foldl (fun x y => x && y) b

/-- `contribution * weight`, with the `weight == 1` skip of the source: the
Python scalar `1` is not multiplied in (an optimisation, the value is the
same); an array weight multiplies and promotes the dtype. -/
def applyWeight (c : MxScalar) : Weight → MxScalar
  | .pyOne => c
  | .arr d v => ⟨promoteDtype c.dtype d, c.val * v⟩

/-- `mx.where(valid, contribution, fill_value)` with a Python-scalar fill:
the dtype follows weak scalar promotion (a float scalar promotes an integer
contribution to a float dtype; otherwise the contribution's dtype wins). -/
def mxWhere (cond : Bool) (a : MxScalar) (fill : PyScalar) : MxScalar :=
  ⟨if a.dtype.isInteger then
      (match fill with
        | .pyFloat _ => .float32
        | .pyInt _ => a.dtype)
    else a.dtype,
   if cond then a.val else fill.val⟩

/-- `a + b` on tensor elements. -/
def addS (a b : MxScalar) : MxScalar := ⟨promoteDtype a.dtype b.dtype, a.val + b.val⟩

/-- The interpolation order, selecting one of the two kernels. -/
inductive InterpOrder where
  | nearest
  | linear
deriving DecidableEq, Repr

/-- The integer index produced by `_nearest_indices_and_weights`: the
coordinate is rounded unless it already has an integer dtype, then cast to
`int32` (truncation; exact here, since the value rounded is integral). -/
def nearestIdx (c : MxScalar) : ℤ :=
  ratTrunc (if c.dtype.isInteger then c.val else (rint c.val : ℚ))

/-- `_nearest_indices_and_weights`: one candidate, weight the Python `1`. -/
def nearest_indices_and_weights (c : MxScalar) : List (ℤ × Weight) :=
  [(nearestIdx c, .pyOne)]

/-- `_linear_indices_and_weights`: `lower = floor(coordinate)` (an identity
on integer-dtype coordinates, whose values are integral), candidates
`(lower, 1 - frac)` and `(lower + 1, frac)`; the weights inherit the
coordinate's dtype. -/
def linear_indices_and_weights (c : MxScalar) : List (ℤ × Weight) :=
  let lower : ℤ := ⌊c.val⌋
  let upper_weight : ℚ := c.val - lower
  let lower_weight : ℚ := 1 - upper_weight
  [(lower, .arr c.dtype lower_weight), (lower + 1, .arr c.dtype upper_weight)]

/-- Kernel dispatch on the interpolation order. -/
def interpCandidates : InterpOrder → MxScalar → List (ℤ × Weight)
  | .nearest => nearest_indices_and_weights
  | .linear => linear_indices_and_weights

/-- One axis's candidate list as built in `_extract_coordinates`: for each
kernel candidate, the boundary-fixed index, the validity of the raw (unfixed)
index, and the weight. -/
def axisCandidates (fixer : ℤ → ℤ → ℤ) (interp : InterpOrder)
    (c : MxScalar) (size : ℕ) : List (ℤ × Bool × Weight) :=
  (interpCandidates interp c).map fun iw =>
    (fixer iw.1 size, decide (0 ≤ iw.1 ∧ iw.1 < (size : ℤ)), iw.2)

/-- `itertools.product`, leftmost axis slowest. -/
def combos {α : Type} : List (List α) → List (List α)
  | [] => [[]]
  | l :: ls => l.flatMap fun x => (combos ls).map (x :: ·)

/-- One combination's contribution in `_extract_coordinates`: gather at the
tuple of fixed indices, replace by the fill value where not every axis was
valid (only under `check_validity`), then multiply by the combined weight. -/
def combTerm (srcD : MxDtype) (src : List ℤ → ℚ) (fill : PyScalar) (check : Bool)
    (comb : List (ℤ × Bool × Weight)) : MxScalar :=
  let contribution : MxScalar := ⟨srcD, src (comb.map (·.1))⟩
  let contribution :=
    if check then mxWhere (reduceAnd (comb.map fun t => t.2.1)) contribution fill
    else contribution
  applyWeight contribution (reduceMulW (comb.map fun t => t.2.2))

/-- The `indices` list built by the loop of `_extract_coordinates`: one
candidate list per axis, the coordinate list zipped against the source's
sizes exactly as in the source. -/
def extractCands (fixer : ℤ → ℤ → ℤ) (interp : InterpOrder)
    (coords : List MxScalar) (sizes : List ℕ) : List (List (ℤ × Bool × Weight)) :=
  (coords.zip sizes).map fun cs => axisCandidates fixer interp cs.1 cs.2

/-- The accumulated weighted sum of `_extract_coordinates`
(`functools.reduce(operator.add, outputs)`). -/
def extractSum (srcD : MxDtype) (src : List ℤ → ℚ) (fixer : ℤ → ℤ → ℤ)
    (interp : InterpOrder) (coords : List MxScalar) (sizes : List ℕ)
    (fill : PyScalar) (check : Bool) : MxScalar :=
  match (combos (extractCands fixer interp coords sizes)).map
      (combTerm srcD src fill check) with
  | [] => ⟨srcD, 0⟩
  | t :: ts => ts.foldl addS t

/-- `_extract_coordinates` per output element: the weighted sum, rounded when
the source dtype is integral but the accumulated dtype is not, then cast back
to the source dtype. -/
def extract_coordinates (srcD : MxDtype) (src : List ℤ → ℚ) (fixer : ℤ → ℤ → ℤ)
    (interp : InterpOrder) (coords : List MxScalar) (sizes : List ℕ)
    (fill : PyScalar) (check : Bool) : MxScalar :=
  let result := extractSum srcD src fixer interp coords sizes fill check
  let result :=
    if srcD.isInteger && !result.dtype.isInteger then
      ⟨result.dtype, (rint result.val : ℚ)⟩
    else result
  astype srcD result

/-- Whether every gathered (fixed) index of every combination lies inside its
axis; a gather outside this range is undefined behaviour in the runtime. -/
def extractInBounds (fixer : ℤ → ℤ → ℤ) (interp : InterpOrder)
    (coords : List MxScalar) (sizes : List ℕ) : Bool :=
  (combos (extractCands fixer interp coords sizes)).all fun comb =>
    (comb.zip sizes).all fun t => decide (0 ≤ t.1.1 ∧ t.1.1 < (t.2 : ℤ))

/-- Raised-error kinds: `ValueError` is `invalidArgument`,
`NotImplementedError` is `notSupported`. -/
inductive MxError where
  | invalidArgument
  | notSupported
deriving DecidableEq, Repr

/-- Result of a public operation: a raised error, undefined behaviour (an
out-of-bounds gather), or a defined value. -/
inductive MxResult (α : Type) where
  | error (e : MxError)
  | undefined
  | ok (v : α)
deriving DecidableEq, Repr

/-- `map_coordinates` per output element: fill-value coercion for integer
sources, the coordinate-count and fill-mode and order validations, then the
resampler with `check_validity = (fill_mode == "constant")`. -/
def map_coordinates_elem (srcD : MxDtype) (src : List ℤ → ℚ) (sizes : List ℕ)
    (coords : List MxScalar) (order : ℕ) (fill_mode : String)
    (fill_value : PyScalar) : MxResult MxScalar :=
  let fill := if srcD.isInteger then fill_value.toPyInt else fill_value
  if coords.length ≠ sizes.length then .error .invalidArgument
  else
    match INDEX_FIXERS fill_mode with
    | none => .error .invalidArgument
    | some fixer =>
      match (if order = 0 then some InterpOrder.nearest
             else if order = 1 then some InterpOrder.linear else none) with
      | none => .error .notSupported
      | some interp =>
        if extractInBounds fixer interp coords sizes then
          .ok (extract_coordinates srcD src fixer interp coords sizes fill
            (decide (fill_mode = "constant")))
        else .undefined

/-- A rank-3 tensor (height, width, channels in the channels-last layout). -/
structure Image3 (d0 d1 d2 : ℕ) where
  dtype : MxDtype
  pix : Fin d0 → Fin d1 → Fin d2 → ℚ

/-- A rank-4 tensor (batch plus a rank-3 layout). -/
structure Image4 (d0 d1 d2 d3 : ℕ) where
  dtype : MxDtype
  pix : Fin d0 → Fin d1 → Fin d2 → Fin d3 → ℚ

instance {d0 d1 d2 : ℕ} : DecidableEq (Image3 d0 d1 d2) := fun a b =>
  decidable_of_iff (a.dtype = b.dtype ∧ a.pix = b.pix)
    (by cases a; cases b; simp [Image3.mk.injEq])

instance {d0 d1 d2 d3 : ℕ} : DecidableEq (Image4 d0 d1 d2 d3) := fun a b =>
  decidable_of_iff (a.dtype = b.dtype ∧ a.pix = b.pix)
    (by cases a; cases b; simp [Image4.mk.injEq])

/-- Gather one element of a rank-3 image at integer spatial indices, with a
fixed channel; out-of-range reads have no defined value (the callers guard
them with `extractInBounds`), the model returns `0` there. -/
def Image3.get {H W C : ℕ} (img : Image3 H W C) (c : Fin C) (iy ix : ℤ) : ℚ :=
  if hy : 0 ≤ iy ∧ iy < (H : ℤ) then
    if hx : 0 ≤ ix ∧ ix < (W : ℤ) then
      img.pix ⟨iy.toNat, by omega⟩ ⟨ix.toNat, by omega⟩ c
    else 0
  else 0

/-- Gather one element of a rank-4 image at integer batch/spatial indices. -/
def Image4.get {B H W C : ℕ} (img : Image4 B H W C) (c : Fin C) (ib iy ix : ℤ) : ℚ :=
  if hb : 0 ≤ ib ∧ ib < (B : ℤ) then
    if hy : 0 ≤ iy ∧ iy < (H : ℤ) then
      if hx : 0 ≤ ix ∧ ix < (W : ℤ) then
        img.pix ⟨ib.toNat, by omega⟩ ⟨iy.toNat, by omega⟩ ⟨ix.toNat, by omega⟩ c
      else 0
    else 0
  else 0

/-- The tensor invariant of the runtime: a tensor of integer dtype holds only
integral values. -/
def Image3.intvals {H W C : ℕ} (img : Image3 H W C) : Prop :=
  img.dtype.isInteger = true → ∀ y x c, ∃ z : ℤ, img.pix y x c = (z : ℚ)

/-- The tensor invariant of the runtime, rank-4 form. -/
def Image4.intvals {B H W C : ℕ} (img : Image4 B H W C) : Prop :=
  img.dtype.isInteger = true → ∀ b y x c, ∃ z : ℤ, img.pix b y x c = (z : ℚ)

/-- `image.transpose(1, 2, 0)` (channels-first rank 3 to channels-last). -/
def Image3.transpose120 {d0 d1 d2 : ℕ} (img : Image3 d0 d1 d2) : Image3 d1 d2 d0 :=
  ⟨img.dtype, fun i j k => img.pix k i j⟩

/-- `result.transpose(2, 0, 1)` (channels-last rank 3 back to channels-first). -/
def Image3.transpose201 {d0 d1 d2 : ℕ} (img : Image3 d0 d1 d2) : Image3 d2 d0 d1 :=
  ⟨img.dtype, fun i j k => img.pix j k i⟩

/-- `image.transpose(0, 2, 3, 1)` (channels-first rank 4 to channels-last). -/
def Image4.transpose0231 {d0 d1 d2 d3 : ℕ} (img : Image4 d0 d1 d2 d3) :
    Image4 d0 d2 d3 d1 :=
  ⟨img.dtype, fun b i j k => img.pix b k i j⟩

/-- `result.transpose(0, 3, 1, 2)` (channels-last rank 4 back to channels-first). -/
def Image4.transpose0312 {d0 d1 d2 d3 : ℕ} (img : Image4 d0 d1 d2 d3) :
    Image4 d0 d3 d1 d2 :=
  ⟨img.dtype, fun b i j k => img.pix b j k i⟩

/-- An array argument of a public operation: rank 3, rank 4, or some other
rank (whose contents no operation here ever reads). -/
inductive MxArray where
  | arr3 (d0 d1 d2 : ℕ) (img : Image3 d0 d1 d2)
  | arr4 (d0 d1 d2 d3 : ℕ) (img : Image4 d0 d1 d2 d3)
  | arrOther (rank : ℕ)

/-- The eight projective-transform coefficients `(a0,a1,a2,b0,b1,b2,c0,c1)`. -/
structure Transform8 where
  a0 : ℚ
  a1 : ℚ
  a2 : ℚ
  b0 : ℚ
  b1 : ℚ
  b2 : ℚ
  c0 : ℚ
  c1 : ℚ
deriving DecidableEq, Repr

/-- `x_src = (a0*x + a1*y + a2) / k` with `k = c0*x + c1*y + 1`, for output
pixel `(y, x)`. -/
def srcCoordX (t : Transform8) (y x : ℕ) : ℚ :=
  (t.a0 * x + t.a1 * y + t.a2) / (t.c0 * x + t.c1 * y + 1)

/-- `y_src = (b0*x + b1*y + b2) / k` for output pixel `(y, x)`. -/
def srcCoordY (t : Transform8) (y x : ℕ) : ℚ :=
  (t.b0 * x + t.b1 * y + t.b2) / (t.c0 * x + t.c1 * y + 1)

/-- `_affine_transform` on a rank-3 (not batched) image: generated source
coordinates `[y_src, x_src]` (float32), then the resampler per output pixel;
the channel axis passes through the gather.  The transform coefficients may
vary with the output pixel's batch only in the rank-4 case, so here they are
a single `Transform8`. -/
def affine_transform_core3 {H W C : ℕ} (img : Image3 H W C) (t : Transform8)
    (tH tW : ℕ) (interp : InterpOrder) (fixer : ℤ → ℤ → ℤ) (fill : PyScalar)
    (check : Bool) : MxResult (Image3 tH tW C) :=
  let coordsAt : Fin tH → Fin tW → List MxScalar := fun y x =>
    [⟨.float32, srcCoordY t y.val x.val⟩, ⟨.float32, srcCoordX t y.val x.val⟩]
  if ∀ (y : Fin tH) (x : Fin tW),
      extractInBounds fixer interp (coordsAt y x) [H, W] = true then
    .ok ⟨img.dtype, fun y x c =>
      (extract_coordinates img.dtype
        (fun l => match l with | [iy, ix] => img.get c iy ix | _ => 0)
        fixer interp (coordsAt y x) [H, W] fill check).val⟩
  else .undefined

/-- `_affine_transform` on a rank-4 (batched) image: the batch coordinate is
`arange(B)` (int32), the spatial coordinates are generated from the (possibly
per-batch) transform coefficients. -/
def affine_transform_core4 {B H W C : ℕ} (img : Image4 B H W C)
    (t : Fin B → Transform8) (tH tW : ℕ) (interp : InterpOrder)
    (fixer : ℤ → ℤ → ℤ) (fill : PyScalar) (check : Bool) :
    MxResult (Image4 B tH tW C) :=
  let coordsAt : Fin B → Fin tH → Fin tW → List MxScalar := fun b y x =>
    [⟨.int32, (b.val : ℚ)⟩, ⟨.float32, srcCoordY (t b) y.val x.val⟩,
     ⟨.float32, srcCoordX (t b) y.val x.val⟩]
  if ∀ (b : Fin B) (y : Fin tH) (x : Fin tW),
      extractInBounds fixer interp (coordsAt b y x) [B, H, W] = true then
    .ok ⟨img.dtype, fun b y x c =>
      (extract_coordinates img.dtype
        (fun l => match l with | [ib, iy, ix] => img.get c ib iy ix | _ => 0)
        fixer interp (coordsAt b y x) [B, H, W] fill check).val⟩
  else .undefined

/-- The transform argument of `affine_transform`: rank 1 (one transform),
rank 2 (a batch of transforms, one row per image), or an invalid rank. -/
inductive TransformArg where
  | single (t : Transform8)
  | batched (ts : List Transform8)
  | badRank

/-- The `AFFINE_TRANSFORM_INTERPOLATIONS` dictionary. -/
def AFFINE_TRANSFORM_INTERPOLATIONS (interpolation : String) : Option InterpOrder :=
  if interpolation = "nearest" then some .nearest
  else if interpolation = "bilinear" then some .linear
  else none

/-- The `AFFINE_TRANSFORM_FILL_MODES` set. -/
def AFFINE_TRANSFORM_FILL_MODES : List String :=
  ["constant", "nearest", "wrap", "mirror", "reflect"]

/-- `affine_transform`: validation of `interpolation`, `fill_mode`, image
rank and transform rank in source order, the channels-first layout
permutation, then `_affine_transform` with
`check_validity = (fill_mode == "constant")`.  A batched transform whose row
count does not match the batch does not broadcast and raises. -/
def affine_transform (image : MxArray) (transform : TransformArg)
    (interpolation : String) (fill_mode : String) (fill_value : PyScalar)
    (data_format : String) : MxResult MxArray :=
  match AFFINE_TRANSFORM_INTERPOLATIONS interpolation with
  | none => .error .invalidArgument
  | some interp =>
    if fill_mode ∉ AFFINE_TRANSFORM_FILL_MODES then .error .invalidArgument
    else
      match INDEX_FIXERS fill_mode with
      | none => .error .invalidArgument
      | some fixer =>
        let check := decide (fill_mode = "constant")
        match image, transform with
        | .arrOther _, _ => .error .invalidArgument
        | _, .badRank => .error .invalidArgument
        | .arr3 d0 d1 d2 img, tr =>
          let t? : Option Transform8 :=
            match tr with
            | .single t => some t
            | .batched [t] => some t
            | _ => none
          match t? with
          | none => .error .invalidArgument
          | some t =>
            if data_format = "channels_first" then
              let img := img.transpose120
              match affine_transform_core3 img t d1 d2 interp fixer fill_value check with
              | .ok r => .ok (.arr3 d0 d1 d2 r.transpose201)
              | .undefined => .undefined
              | .error e => .error e
            else
              match affine_transform_core3 img t d0 d1 interp fixer fill_value check with
              | .ok r => .ok (.arr3 d0 d1 d2 r)
              | .undefined => .undefined
              | .error e => .error e
        | .arr4 d0 d1 d2 d3 img, tr =>
          let t? : Option (Fin d0 → Transform8) :=
            match tr with
            | .single t => some fun _ => t
            | .batched ts =>
              if h : ts.length = d0 then some fun b => ts.get (h ▸ b) else none
            | .badRank => none
          match t? with
          | none => .error .invalidArgument
          | some t =>
            if data_format = "channels_first" then
              let img := img.transpose0231
              match affine_transform_core4 img t d2 d3 interp fixer fill_value check with
              | .ok r => .ok (.arr4 d0 d1 d2 d3 r.transpose0312)
              | .undefined => .undefined
              | .error e => .error e
            else
              match affine_transform_core4 img t d1 d2 interp fixer fill_value check with
              | .ok r => .ok (.arr4 d0 d1 d2 d3 r)
              | .undefined => .undefined
              | .error e => .error e

/-- The pure-scale transform built by `resize` from the channels-last source
spatial size `(H, W)` and the target size. -/
def resizeTransform (H W : ℕ) (size : ℕ × ℕ) : Transform8 :=
  ⟨(H : ℚ) / size.1, 0, 0, 0, (W : ℚ) / size.2, 0, 0, 0⟩

/-- `resize`: the `antialias` rejection first, then `interpolation` and rank
validation, the channels-first permutation, and the affine path with the
`constant` fixer, fill value `0` and `check_validity=False`. -/
def resize (image : MxArray) (size : ℕ × ℕ) (interpolation : String)
    (antialias : Bool) (data_format : String) : MxResult MxArray :=
  if antialias then .error .notSupported
  else
    match AFFINE_TRANSFORM_INTERPOLATIONS interpolation with
    | none => .error .invalidArgument
    | some interp =>
      let fixer := fun index size => clip index 0 (size - 1)
      match image with
      | .arrOther _ => .error .invalidArgument
      | .arr3 d0 d1 d2 img =>
        if data_format = "channels_first" then
          let img := img.transpose120
          match affine_transform_core3 img (resizeTransform d1 d2 size) size.1 size.2
              interp fixer (.pyInt 0) false with
          | .ok r => .ok (.arr3 d0 size.1 size.2 r.transpose201)
          | .undefined => .undefined
          | .error e => .error e
        else
          match affine_transform_core3 img (resizeTransform d0 d1 size) size.1 size.2
              interp fixer (.pyInt 0) false with
          | .ok r => .ok (.arr3 size.1 size.2 d2 r)
          | .undefined => .undefined
          | .error e => .error e
      | .arr4 d0 d1 d2 d3 img =>
        if data_format = "channels_first" then
          let img := img.transpose0231
          match affine_transform_core4 img (fun _ => resizeTransform d2 d3 size)
              size.1 size.2 interp fixer (.pyInt 0) false with
          | .ok r => .ok (.arr4 d0 d1 size.1 size.2 r.transpose0312)
          | .undefined => .undefined
          | .error e => .error e
        else
          match affine_transform_core4 img (fun _ => resizeTransform d1 d2 size)
              size.1 size.2 interp fixer (.pyInt 0) false with
          | .ok r => .ok (.arr4 d0 size.1 size.2 d3 r)
          | .undefined => .undefined
          | .error e => .error e

/-! ## Arithmetic facts about the boundary fixers -/

lemma clip_mem (i size : ℤ) (h : 1 ≤ size) :
    0 ≤ clip i 0 (size - 1) ∧ clip i 0 (size - 1) < size := by
  unfold clip; omega

lemma wrap_mem (i size : ℤ) (h : 0 < size) : 0 ≤ i % size ∧ i % size < size :=
  ⟨Int.emod_nonneg i (by omega), Int.emod_lt_of_pos i h⟩

lemma mirror_mem (i size : ℤ) (h : 2 ≤ size) :
    0 ≤ mirror_index_fixer i size ∧ mirror_index_fixer i size < size := by
  unfold mirror_index_fixer
  set s : ℤ := size - 1 with hsdef
  have h2s : (0 : ℤ) < 2 * s := by omega
  have he1 : 0 ≤ (i + s) % (2 * s) := Int.emod_nonneg _ (by omega)
  have he2 : (i + s) % (2 * s) < 2 * s := Int.emod_lt_of_pos _ h2s
  refine ⟨abs_nonneg _, ?_⟩
  rcases abs_cases ((i + s) % (2 * s) - s) with ⟨h1, _⟩ | ⟨h1, _⟩ <;> omega

lemma reflect_mem (i size : ℤ) (h : 1 ≤ size) :
    0 ≤ reflect_index_fixer i size ∧ reflect_index_fixer i size < size := by
  unfold reflect_index_fixer mirror_index_fixer
  have h4 : (0 : ℤ) < 2 * (2 * size + 1 - 1) := by omega
  set e : ℤ := (2 * i + 1 + (2 * size + 1 - 1)) % (2 * (2 * size + 1 - 1)) with he
  have he1 : 0 ≤ e := Int.emod_nonneg _ (by omega)
  have he2 : e < 2 * (2 * size + 1 - 1) := Int.emod_lt_of_pos _ h4
  have hpar : e % 2 = 1 := by
    have hdvd : (2 : ℤ) ∣ 2 * (2 * size + 1 - 1) := ⟨2 * size + 1 - 1, by ring⟩
    have := Int.emod_emod_of_dvd (2 * i + 1 + (2 * size + 1 - 1)) hdvd
    rw [← he] at this
    omega
  have hM : |e - (2 * size + 1 - 1)| % 2 = 1 := by
    rcases abs_cases (e - (2 * size + 1 - 1)) with ⟨h1, _⟩ | ⟨h1, _⟩ <;> omega
  have hM1 : 1 ≤ |e - (2 * size + 1 - 1)| := by
    have := abs_nonneg (e - (2 * size + 1 - 1))
    omega
  have hM2 : |e - (2 * size + 1 - 1)| ≤ 2 * size - 1 := by
    rcases abs_cases (e - (2 * size + 1 - 1)) with ⟨h1, _⟩ | ⟨h1, _⟩ <;> omega
  obtain ⟨k, hk, hk0, hk1⟩ :
      ∃ k, |e - (2 * size + 1 - 1)| - 1 = 2 * k ∧ 0 ≤ k ∧ k < size :=
    ⟨(|e - (2 * size + 1 - 1)| - 1) / 2, by omega, by omega, by omega⟩
  rw [hk, Int.mul_fdiv_cancel_left _ (by norm_num)]
  exact ⟨hk0, hk1⟩

lemma clip_id (i size : ℤ) (h0 : 0 ≤ i) (h1 : i < size) : clip i 0 (size - 1) = i := by
  unfold clip; omega

lemma mirror_id (i size : ℤ) (h0 : 0 ≤ i) (h1 : i < size) :
    mirror_index_fixer i size = i := by
  unfold mirror_index_fixer
  set s : ℤ := size - 1 with hsdef
  rcases eq_or_lt_of_le (show i ≤ s by omega) with heq | hlt
  · rcases eq_or_lt_of_le (show (0 : ℤ) ≤ s by omega) with h0s | h0s
    · rw [heq, ← h0s]; norm_num
    · rw [heq, show s + s = 2 * s by ring, Int.emod_self, zero_sub, abs_neg,
        abs_of_nonneg (le_of_lt h0s)]
  · rw [Int.emod_eq_of_lt (by omega) (by omega),
      show i + s - s = i by ring, abs_of_nonneg h0]

lemma reflect_id (i size : ℤ) (h0 : 0 ≤ i) (h1 : i < size) :
    reflect_index_fixer i size = i := by
  unfold reflect_index_fixer mirror_index_fixer
  rw [Int.emod_eq_of_lt (by omega) (by omega)]
  rw [show |2 * i + 1 + (2 * size + 1 - 1) - (2 * size + 1 - 1)| = 2 * i + 1 by
    rw [abs_of_nonneg] <;> omega]
  rw [show 2 * i + 1 - 1 = 2 * i by ring, Int.mul_fdiv_cancel_left _ (by norm_num)]

lemma mirror_neg_one (size : ℤ) (h : 1 ≤ size) : mirror_index_fixer (-1) size = 1 := by
  unfold mirror_index_fixer
  set s : ℤ := size - 1 with hs
  rcases eq_or_lt_of_le (show (0 : ℤ) ≤ s by omega) with h0 | h0
  · rw [← h0]; norm_num
  · rw [show (-1 : ℤ) + s = s - 1 by ring, Int.emod_eq_of_lt (by omega) (by omega)]
    rw [show s - 1 - s = -1 by ring]; norm_num

lemma mirror_one (size : ℤ) (h : 1 ≤ size) : mirror_index_fixer 1 size = 1 := by
  unfold mirror_index_fixer
  set s : ℤ := size - 1 with hs
  rcases eq_or_lt_of_le (show (0 : ℤ) ≤ s by omega) with h0 | h0
  · rw [← h0]; norm_num
  · rcases eq_or_lt_of_le (show (1 : ℤ) ≤ s by omega) with h1 | h1
    · rw [← h1]; norm_num
    · rw [Int.emod_eq_of_lt (by omega) (by omega), show (1 : ℤ) + s - s = 1 by ring]
      norm_num

lemma mirror_zero (size : ℤ) (h : 1 ≤ size) : mirror_index_fixer 0 size = 0 := by
  unfold mirror_index_fixer
  set s : ℤ := size - 1 with hs
  rcases eq_or_lt_of_le (show (0 : ℤ) ≤ s by omega) with h0 | h0
  · rw [← h0]; norm_num
  · rw [zero_add, Int.emod_eq_of_lt (by omega) (by omega), sub_self, abs_zero]

lemma reflect_neg_one (size : ℤ) (h : 1 ≤ size) : reflect_index_fixer (-1) size = 0 := by
  unfold reflect_index_fixer mirror_index_fixer
  rw [show 2 * (-1 : ℤ) + 1 + (2 * size + 1 - 1) = 2 * size - 1 by ring,
    Int.emod_eq_of_lt (by omega) (by omega),
    show 2 * size - 1 - (2 * size + 1 - 1) = -1 by ring]
  norm_num

lemma reflect_zero (size : ℤ) (h : 1 ≤ size) : reflect_index_fixer 0 size = 0 := by
  unfold reflect_index_fixer mirror_index_fixer
  rw [Int.emod_eq_of_lt (by omega) (by omega),
    show 2 * 0 + 1 + (2 * size + 1 - 1) - (2 * size + 1 - 1) = 1 by ring]
  norm_num

/-- Range of every fixer in the `_INDEX_FIXERS` table, shared by several
results below: any fixer looked up from the table maps any integer index
into `[0, size)` provided `size ≥ 1` — except `mirror`, which needs
`size ≥ 2` (at `size = 1` its modulus `2*(size-1)` is zero). -/
lemma index_fixer_mem (mode : String) (fixer : ℤ → ℤ → ℤ)
    (h : INDEX_FIXERS mode = some fixer) (i size : ℤ) (h1 : 1 ≤ size)
    (hm : mode = "mirror" → 2 ≤ size) :
    0 ≤ fixer i size ∧ fixer i size < size := by
  unfold INDEX_FIXERS at h
  split_ifs at h with hc hn hw hmi hr
  · cases h; exact clip_mem i size h1
  · cases h; exact clip_mem i size h1
  · cases h; exact wrap_mem i size (by omega)
  · cases h; exact mirror_mem i size (hm hmi)
  · cases h; exact reflect_mem i size h1

/-- In-range identity of every fixer in the `_INDEX_FIXERS` table. -/
lemma index_fixer_id (mode : String) (fixer : ℤ → ℤ → ℤ)
    (h : INDEX_FIXERS mode = some fixer) (i size : ℤ) (h0 : 0 ≤ i)
    (h1 : i < size) :
    fixer i size = i := by
  unfold INDEX_FIXERS at h
  split_ifs at h with hc hn hw hmi hr
  · cases h; exact clip_id i size h0 h1
  · cases h; exact clip_id i size h0 h1
  · cases h; exact Int.emod_eq_of_lt h0 h1
  · cases h; exact mirror_id i size h0 h1
  · cases h; exact reflect_id i size h0 h1

/-! ## C3, C4, C5: properties of the boundary fixers -/

/-- C3 (amended): every fixer in `_INDEX_FIXERS` is a total function, and
maps every integer index into `[0, size)` for every positive size — except
`mirror`, which requires `size ≥ 2`: at `size = 1` its half-wavelength
`s = size - 1` is zero, so it reduces indices modulo `2*s = 0` and can
return an index outside `[0, size)`. -/
theorem index_fixers_in_range (mode : String) (fixer : ℤ → ℤ → ℤ)
    (h : INDEX_FIXERS mode = some fixer) (i : ℤ) (size : ℤ) (h1 : 1 ≤ size)
    (hm : mode = "mirror" → 2 ≤ size) :
    0 ≤ fixer i size ∧ fixer i size < size :=
  index_fixer_mem mode fixer h i size h1 hm

theorem index_fixers_in_range_witness :
    (0 ≤ mirror_index_fixer (-7) 4 ∧ mirror_index_fixer (-7) 4 < 4) ∧
    (0 ≤ reflect_index_fixer 9 1 ∧ reflect_index_fixer 9 1 < 1) := by
  constructor
  · exact index_fixers_in_range "mirror" mirror_index_fixer (by simp [INDEX_FIXERS])
      (-7) 4 (by norm_num) (fun _ => by norm_num)
  · exact index_fixers_in_range "reflect" reflect_index_fixer (by simp [INDEX_FIXERS])
      9 1 (by norm_num) (fun hc => absurd hc (by decide))

/-- C3 counterexample: the `mirror` fixer at `size = 1` does not keep the
index in `[0, 1)` — the claim's "this must hold for mirror even when
size = 1" is false.  (With the model's `a % 0 = a` remainder,
`mirror(2, 1) = |2 % 0| = 2`; on the actual runtime the index arithmetic at
`size = 1` divides by zero, so the claimed bound fails there in any case.) -/
theorem mirror_size_one_escapes :
    INDEX_FIXERS "mirror" = some mirror_index_fixer ∧
    mirror_index_fixer 2 1 = 2 ∧ ¬(mirror_index_fixer 2 1 < 1) := by
  refine ⟨by simp [INDEX_FIXERS], by decide, by decide⟩

/-- C4: the `wrap` fixer is true mathematical modulo: non-negative for every
integer index (also negative ones) and periodic with period `size`. -/
theorem wrap_fixer_true_modulo (fixer : ℤ → ℤ → ℤ)
    (h : INDEX_FIXERS "wrap" = some fixer) (index size k : ℤ) (hs : 0 < size) :
    0 ≤ fixer index size ∧ fixer index size < size ∧
    fixer index size = fixer (index + k * size) size := by
  have hw : INDEX_FIXERS "wrap" = some fun index size => index % size := by
    simp [INDEX_FIXERS]
  rw [hw] at h
  obtain rfl := Option.some.inj h
  refine ⟨Int.emod_nonneg index (by omega), Int.emod_lt_of_pos index hs, ?_⟩
  simp [Int.add_mul_emod_self]

theorem wrap_fixer_true_modulo_witness :
    0 ≤ (fun index size => index % size : ℤ → ℤ → ℤ) (-5) 3 ∧
    (fun index size => index % size : ℤ → ℤ → ℤ) (-5) 3 < 3 ∧
    (fun index size => index % size : ℤ → ℤ → ℤ) (-5) 3 =
      (fun index size => index % size : ℤ → ℤ → ℤ) (-5 + 2 * 3) 3 :=
  wrap_fixer_true_modulo _ (by simp [INDEX_FIXERS]) (-5) 3 2 (by norm_num)

/-- C5: for every positive size, `reflect` duplicates the edge sample
(`fix(-1) = fix(0)`), while `mirror` does not: `fix(-1) = fix(1)`, and
`fix(-1) ≠ fix(0)` whenever `size > 1`. -/
theorem reflect_duplicates_edge_mirror_does_not (size : ℤ) (h : 1 ≤ size) :
    reflect_index_fixer (-1) size = reflect_index_fixer 0 size ∧
    mirror_index_fixer (-1) size = mirror_index_fixer 1 size ∧
    (1 < size → mirror_index_fixer (-1) size ≠ mirror_index_fixer 0 size) := by
  refine ⟨?_, ?_, ?_⟩
  · rw [reflect_neg_one size h, reflect_zero size h]
  · rw [mirror_neg_one size h, mirror_one size h]
  · intro hlt
    rw [mirror_neg_one size h, mirror_zero size (by omega)]
    norm_num

theorem reflect_duplicates_edge_mirror_does_not_witness :
    (reflect_index_fixer (-1) 3 = reflect_index_fixer 0 3 ∧
      mirror_index_fixer (-1) 3 = mirror_index_fixer 1 3 ∧
      (1 < (3 : ℤ) → mirror_index_fixer (-1) 3 ≠ mirror_index_fixer 0 3)) :=
  reflect_duplicates_edge_mirror_does_not 3 (by norm_num)

/-! ## C6: the linear interpolation kernel -/

/-- C6: the order-1 kernel expands a coordinate into exactly the candidates
`(floor(c), 1 - frac)` and `(floor(c) + 1, frac)`; on an integer-valued
coordinate the weights degenerate to `[1, 0]`, so the kernel's weighted sum
selects the sample at that index exactly. -/
theorem linear_kernel_candidates :
    (∀ (c : MxScalar),
      linear_indices_and_weights c =
        [(⌊c.val⌋, Weight.arr c.dtype (1 - (c.val - ⌊c.val⌋))),
         (⌊c.val⌋ + 1, Weight.arr c.dtype (c.val - ⌊c.val⌋))]) ∧
    (∀ (d : MxDtype) (n : ℤ),
      ((linear_indices_and_weights ⟨d, (n : ℚ)⟩).map fun iw => iw.2.val) = [1, 0] ∧
      ∀ (f : ℤ → ℚ),
        ((linear_indices_and_weights ⟨d, (n : ℚ)⟩).map
          fun iw => iw.2.val * f iw.1).sum = f n) := by
  refine ⟨fun c => rfl, fun d n => ⟨?_, fun f => ?_⟩⟩
  · simp [linear_indices_and_weights, Weight.val]
  · simp [linear_indices_and_weights, Weight.val]

/-! ## Value-level lemmas about the resampler -/

lemma rint_intCast (n : ℤ) : rint (n : ℚ) = n := by
  norm_num [rint, Int.floor_intCast]

lemma ratTrunc_intCast (n : ℤ) : ratTrunc (n : ℚ) = n := by
  unfold ratTrunc
  rw [← Int.cast_neg, Int.floor_intCast, Int.floor_intCast]
  split <;> omega

lemma Weight.mul_val (a b : Weight) : (Weight.mul a b).val = a.val * b.val := by
  cases a <;> cases b <;> simp [Weight.mul, Weight.val]

lemma reduceMulW_val (ws : List Weight) : (reduceMulW ws).val = (ws.map Weight.val).prod := by
  cases ws with
  | nil => simp [reduceMulW, Weight.val]
  | cons w ws =>
    simp only [reduceMulW, List.map_cons, List.prod_cons]
    induction ws generalizing w with
    | nil => simp
    | cons x xs ih =>
      simp only [List.foldl_cons, List.map_cons, List.prod_cons, ih, Weight.mul_val]
      ring

lemma applyWeight_val (c : MxScalar) (w : Weight) : (applyWeight c w).val = c.val * w.val := by
  cases w <;> simp [applyWeight, Weight.val]

lemma addS_val (a b : MxScalar) : (addS a b).val = a.val + b.val := rfl

lemma foldl_addS_val (l : List MxScalar) (init : MxScalar) :
    (l.foldl addS init).val = init.val + (l.map MxScalar.val).sum := by
  induction l generalizing init with
  | nil => simp
  | cons x xs ih =>
    simp only [List.foldl_cons, ih, addS_val, List.map_cons, List.sum_cons]
    ring

lemma extractSum_val (srcD : MxDtype) (src : List ℤ → ℚ) (fixer : ℤ → ℤ → ℤ)
    (interp : InterpOrder) (coords : List MxScalar) (sizes : List ℕ)
    (fill : PyScalar) (check : Bool) :
    (extractSum srcD src fixer interp coords sizes fill check).val =
      ((combos (extractCands fixer interp coords sizes)).map
        (fun comb => (combTerm srcD src fill check comb).val)).sum := by
  unfold extractSum
  rw [show ((combos (extractCands fixer interp coords sizes)).map
        (fun comb => (combTerm srcD src fill check comb).val)) =
      ((combos (extractCands fixer interp coords sizes)).map
        (combTerm srcD src fill check)).map MxScalar.val by
    rw [List.map_map]; rfl]
  cases h : (combos (extractCands fixer interp coords sizes)).map
      (combTerm srcD src fill check) with
  | nil => simp
  | cons t ts => simp [foldl_addS_val]

lemma reduceAnd_eq_all (bs : List Bool) : reduceAnd bs = bs.all id := by
  cases bs with
  | nil => rfl
  | cons b bs =>
    simp only [reduceAnd]
    induction bs generalizing b with
    | nil => simp
    | cons x xs ih => simp [List.foldl_cons, ih, List.all_cons, Bool.and_assoc]

lemma combTerm_val (srcD : MxDtype) (src : List ℤ → ℚ) (fill : PyScalar)
    (check : Bool) (comb : List (ℤ × Bool × Weight)) :
    (combTerm srcD src fill check comb).val =
      (if check then
        (if (comb.map fun t => t.2.1).all id then src (comb.map (·.1)) else fill.val)
      else src (comb.map (·.1))) * ((comb.map fun t => t.2.2.val).prod) := by
  unfold combTerm
  rw [applyWeight_val, reduceMulW_val]
  congr 1
  · split
    · rw [reduceAnd_eq_all]
      rfl
    · rfl
  · rw [List.map_map]; rfl

lemma nearestIdx_intCast (d : MxDtype) (m : ℤ) : nearestIdx ⟨d, (m : ℚ)⟩ = m := by
  unfold nearestIdx
  split <;> simp [rint_intCast, ratTrunc_intCast]

lemma axisCandidates_nearest_int (fixer : ℤ → ℤ → ℤ) (d : MxDtype) (m : ℤ) (n : ℕ)
    (h0 : 0 ≤ m) (h1 : m < (n : ℤ)) (hid : fixer m n = m) :
    axisCandidates fixer .nearest ⟨d, (m : ℚ)⟩ n = [(m, true, Weight.pyOne)] := by
  simp [axisCandidates, interpCandidates, nearest_indices_and_weights,
    nearestIdx_intCast, hid, h0, h1]

lemma axisCandidates_linear_int (fixer : ℤ → ℤ → ℤ) (d : MxDtype) (m : ℤ) (n : ℕ)
    (h0 : 0 ≤ m) (h1 : m < (n : ℤ)) (hid : fixer m n = m) :
    axisCandidates fixer .linear ⟨d, (m : ℚ)⟩ n =
      [(m, true, Weight.arr d 1),
       (fixer (m + 1) n, decide (m + 1 < (n : ℤ)), Weight.arr d 0)] := by
  unfold axisCandidates interpCandidates linear_indices_and_weights
  simp only [Int.floor_intCast, List.map_cons, List.map_nil, hid, sub_self, sub_zero,
    List.cons.injEq, Prod.mk.injEq, and_true, List.nil_eq]
  refine ⟨⟨trivial, by simp [h0, h1]⟩, trivial, ?_⟩
  simp only [decide_eq_decide]
  omega

lemma extractSum_val_int2 (srcD : MxDtype) (src : List ℤ → ℚ) (fixer : ℤ → ℤ → ℤ)
    (interp : InterpOrder) (d1 d2 : MxDtype) (m1 m2 : ℤ) (n1 n2 : ℕ)
    (fill : PyScalar) (check : Bool)
    (h01 : 0 ≤ m1) (h11 : m1 < (n1 : ℤ)) (h02 : 0 ≤ m2) (h12 : m2 < (n2 : ℤ))
    (hid1 : fixer m1 n1 = m1) (hid2 : fixer m2 n2 = m2) :
    (extractSum srcD src fixer interp [⟨d1, (m1 : ℚ)⟩, ⟨d2, (m2 : ℚ)⟩] [n1, n2]
      fill check).val = src [m1, m2] := by
  rw [extractSum_val]
  cases interp with
  | nearest =>
    simp [extractCands, axisCandidates_nearest_int fixer d1 m1 n1 h01 h11 hid1,
      axisCandidates_nearest_int fixer d2 m2 n2 h02 h12 hid2, combos,
      combTerm_val, Weight.val]
  | linear =>
    simp [extractCands, axisCandidates_linear_int fixer d1 m1 n1 h01 h11 hid1,
      axisCandidates_linear_int fixer d2 m2 n2 h02 h12 hid2, combos,
      combTerm_val, Weight.val]

lemma extractSum_val_int3 (srcD : MxDtype) (src : List ℤ → ℚ) (fixer : ℤ → ℤ → ℤ)
    (interp : InterpOrder) (d1 d2 d3 : MxDtype) (m1 m2 m3 : ℤ) (n1 n2 n3 : ℕ)
    (fill : PyScalar) (check : Bool)
    (h01 : 0 ≤ m1) (h11 : m1 < (n1 : ℤ)) (h02 : 0 ≤ m2) (h12 : m2 < (n2 : ℤ))
    (h03 : 0 ≤ m3) (h13 : m3 < (n3 : ℤ))
    (hid1 : fixer m1 n1 = m1) (hid2 : fixer m2 n2 = m2) (hid3 : fixer m3 n3 = m3) :
    (extractSum srcD src fixer interp
      [⟨d1, (m1 : ℚ)⟩, ⟨d2, (m2 : ℚ)⟩, ⟨d3, (m3 : ℚ)⟩] [n1, n2, n3]
      fill check).val = src [m1, m2, m3] := by
  rw [extractSum_val]
  cases interp with
  | nearest =>
    simp [extractCands, axisCandidates_nearest_int fixer d1 m1 n1 h01 h11 hid1,
      axisCandidates_nearest_int fixer d2 m2 n2 h02 h12 hid2,
      axisCandidates_nearest_int fixer d3 m3 n3 h03 h13 hid3, combos,
      combTerm_val, Weight.val]
  | linear =>
    simp [extractCands, axisCandidates_linear_int fixer d1 m1 n1 h01 h11 hid1,
      axisCandidates_linear_int fixer d2 m2 n2 h02 h12 hid2,
      axisCandidates_linear_int fixer d3 m3 n3 h03 h13 hid3, combos,
      combTerm_val, Weight.val]

lemma extract_coordinates_dtype (srcD : MxDtype) (src : List ℤ → ℚ)
    (fixer : ℤ → ℤ → ℤ) (interp : InterpOrder) (coords : List MxScalar)
    (sizes : List ℕ) (fill : PyScalar) (check : Bool) :
    (extract_coordinates srcD src fixer interp coords sizes fill check).dtype = srcD := rfl

lemma extract_coordinates_val_of_sum_int (srcD : MxDtype) (src : List ℤ → ℚ)
    (fixer : ℤ → ℤ → ℤ) (interp : InterpOrder) (coords : List MxScalar)
    (sizes : List ℕ) (fill : PyScalar) (check : Bool) (z : ℤ)
    (hsum : (extractSum srcD src fixer interp coords sizes fill check).val = (z : ℚ)) :
    (extract_coordinates srcD src fixer interp coords sizes fill check).val = (z : ℚ) := by
  unfold extract_coordinates astype
  simp [apply_ite MxScalar.val, hsum, rint_intCast, ratTrunc_intCast]

lemma extract_coordinates_val_float (srcD : MxDtype) (src : List ℤ → ℚ)
    (fixer : ℤ → ℤ → ℤ) (interp : InterpOrder) (coords : List MxScalar)
    (sizes : List ℕ) (fill : PyScalar) (check : Bool)
    (hf : srcD.isInteger = false) :
    (extract_coordinates srcD src fixer interp coords sizes fill check).val =
      (extractSum srcD src fixer interp coords sizes fill check).val := by
  unfold extract_coordinates
  simp [astype, hf]

lemma extractInBounds_int2 (fixer : ℤ → ℤ → ℤ) (interp : InterpOrder)
    (d1 d2 : MxDtype) (m1 m2 : ℤ) (n1 n2 : ℕ)
    (h01 : 0 ≤ m1) (h11 : m1 < (n1 : ℤ)) (h02 : 0 ≤ m2) (h12 : m2 < (n2 : ℤ))
    (hid1 : fixer m1 n1 = m1) (hid2 : fixer m2 n2 = m2)
    (hm1 : interp = .linear → ∀ i : ℤ, 0 ≤ fixer i n1 ∧ fixer i n1 < n1)
    (hm2 : interp = .linear → ∀ i : ℤ, 0 ≤ fixer i n2 ∧ fixer i n2 < n2) :
    extractInBounds fixer interp [⟨d1, (m1 : ℚ)⟩, ⟨d2, (m2 : ℚ)⟩] [n1, n2] = true := by
  cases interp with
  | nearest =>
    simp [extractInBounds, extractCands,
      axisCandidates_nearest_int fixer d1 m1 n1 h01 h11 hid1,
      axisCandidates_nearest_int fixer d2 m2 n2 h02 h12 hid2, combos, h01, h11, h02, h12]
  | linear =>
    simp [extractInBounds, extractCands,
      axisCandidates_linear_int fixer d1 m1 n1 h01 h11 hid1,
      axisCandidates_linear_int fixer d2 m2 n2 h02 h12 hid2, combos,
      h01, h11, h02, h12, (hm1 rfl (m1 + 1)).1, (hm1 rfl (m1 + 1)).2,
      (hm2 rfl (m2 + 1)).1, (hm2 rfl (m2 + 1)).2]

lemma extractInBounds_int3 (fixer : ℤ → ℤ → ℤ) (interp : InterpOrder)
    (d1 d2 d3 : MxDtype) (m1 m2 m3 : ℤ) (n1 n2 n3 : ℕ)
    (h01 : 0 ≤ m1) (h11 : m1 < (n1 : ℤ)) (h02 : 0 ≤ m2) (h12 : m2 < (n2 : ℤ))
    (h03 : 0 ≤ m3) (h13 : m3 < (n3 : ℤ))
    (hid1 : fixer m1 n1 = m1) (hid2 : fixer m2 n2 = m2) (hid3 : fixer m3 n3 = m3)
    (hm1 : interp = .linear → ∀ i : ℤ, 0 ≤ fixer i n1 ∧ fixer i n1 < n1)
    (hm2 : interp = .linear → ∀ i : ℤ, 0 ≤ fixer i n2 ∧ fixer i n2 < n2)
    (hm3 : interp = .linear → ∀ i : ℤ, 0 ≤ fixer i n3 ∧ fixer i n3 < n3) :
    extractInBounds fixer interp
      [⟨d1, (m1 : ℚ)⟩, ⟨d2, (m2 : ℚ)⟩, ⟨d3, (m3 : ℚ)⟩] [n1, n2, n3] = true := by
  cases interp with
  | nearest =>
    simp [extractInBounds, extractCands,
      axisCandidates_nearest_int fixer d1 m1 n1 h01 h11 hid1,
      axisCandidates_nearest_int fixer d2 m2 n2 h02 h12 hid2,
      axisCandidates_nearest_int fixer d3 m3 n3 h03 h13 hid3, combos,
      h01, h11, h02, h12, h03, h13]
  | linear =>
    simp [extractInBounds, extractCands,
      axisCandidates_linear_int fixer d1 m1 n1 h01 h11 hid1,
      axisCandidates_linear_int fixer d2 m2 n2 h02 h12 hid2,
      axisCandidates_linear_int fixer d3 m3 n3 h03 h13 hid3, combos,
      h01, h11, h02, h12, h03, h13, (hm1 rfl (m1 + 1)).1, (hm1 rfl (m1 + 1)).2,
      (hm2 rfl (m2 + 1)).1, (hm2 rfl (m2 + 1)).2, (hm3 rfl (m3 + 1)).1, (hm3 rfl (m3 + 1)).2]

/-! ## The identity affine transform -/

/-- The identity transform `(1, 0, 0, 0, 1, 0, 0, 0)`. -/
def identityTransform : Transform8 := ⟨1, 0, 0, 0, 1, 0, 0, 0⟩

lemma srcCoordX_id (y x : ℕ) : srcCoordX identityTransform y x = ((x : ℤ) : ℚ) := by
  simp [srcCoordX, identityTransform]

lemma srcCoordY_id (y x : ℕ) : srcCoordY identityTransform y x = ((y : ℤ) : ℚ) := by
  simp [srcCoordY, identityTransform]

lemma image3_get_coe {H W C : ℕ} (img : Image3 H W C) (y : Fin H) (x : Fin W)
    (c : Fin C) : img.get c (y.val : ℤ) (x.val : ℤ) = img.pix y x c := by
  unfold Image3.get
  rw [dif_pos ⟨Int.ofNat_nonneg _, by exact_mod_cast y.isLt⟩,
    dif_pos ⟨Int.ofNat_nonneg _, by exact_mod_cast x.isLt⟩]
  simp only [Int.toNat_natCast, Fin.eta]

lemma image4_get_coe {B H W C : ℕ} (img : Image4 B H W C) (b : Fin B) (y : Fin H)
    (x : Fin W) (c : Fin C) :
    img.get c (b.val : ℤ) (y.val : ℤ) (x.val : ℤ) = img.pix b y x c := by
  unfold Image4.get
  rw [dif_pos ⟨Int.ofNat_nonneg _, by exact_mod_cast b.isLt⟩,
    dif_pos ⟨Int.ofNat_nonneg _, by exact_mod_cast y.isLt⟩,
    dif_pos ⟨Int.ofNat_nonneg _, by exact_mod_cast x.isLt⟩]
  simp only [Int.toNat_natCast, Fin.eta]

/-- The rank-3 core of the identity-transform round trip. -/
lemma affine_core3_identity {H W C : ℕ} (img : Image3 H W C)
    (mode : String) (fixer : ℤ → ℤ → ℤ) (hmode : INDEX_FIXERS mode = some fixer)
    (interp : InterpOrder) (fill : PyScalar) (check : Bool)
    (himg : img.intvals)
    (hmir : mode = "mirror" → interp = .linear → 2 ≤ H ∧ 2 ≤ W) :
    affine_transform_core3 img identityTransform H W interp fixer fill check = .ok img := by
  unfold affine_transform_core3
  simp only [srcCoordX_id, srcCoordY_id]
  have hid : ∀ (y : Fin H), fixer (y.val : ℤ) (H : ℤ) = (y.val : ℤ) := fun y =>
    index_fixer_id mode fixer hmode _ _ (Int.ofNat_nonneg _) (by exact_mod_cast y.isLt)
  have hidW : ∀ (x : Fin W), fixer (x.val : ℤ) (W : ℤ) = (x.val : ℤ) := fun x =>
    index_fixer_id mode fixer hmode _ _ (Int.ofNat_nonneg _) (by exact_mod_cast x.isLt)
  rw [if_pos]
  case hc =>
    intro y x
    exact extractInBounds_int2 fixer interp _ _ _ _ H W
      (Int.ofNat_nonneg _) (by exact_mod_cast y.isLt)
      (Int.ofNat_nonneg _) (by exact_mod_cast x.isLt)
      (hid y) (hidW x)
      (fun hlin i => index_fixer_mem mode fixer hmode i H
        (by exact_mod_cast y.pos) (fun hmo => by exact_mod_cast (hmir hmo hlin).1))
      (fun hlin i => index_fixer_mem mode fixer hmode i W
        (by exact_mod_cast x.pos) (fun hmo => by exact_mod_cast (hmir hmo hlin).2))
  congr 1
  obtain ⟨dt, pix⟩ := img
  simp only [Image3.mk.injEq, true_and]
  refine funext fun y => funext fun x => funext fun c => ?_
  by_cases hdt : dt.isInteger = true
  · obtain ⟨z, hz⟩ := himg hdt y x c
    have hsum : (extractSum dt
        (fun l => match l with
          | [iy, ix] => Image3.get ⟨dt, pix⟩ c iy ix
          | _ => 0)
        fixer interp [⟨.float32, ((y.val : ℤ) : ℚ)⟩, ⟨.float32, ((x.val : ℤ) : ℚ)⟩]
        [H, W] fill check).val = (z : ℚ) := by
      rw [extractSum_val_int2 dt _ fixer interp _ _ _ _ H W fill check
        (Int.ofNat_nonneg _) (by exact_mod_cast y.isLt)
        (Int.ofNat_nonneg _) (by exact_mod_cast x.isLt) (hid y) (hidW x)]
      show Image3.get ⟨dt, pix⟩ c (y.val : ℤ) (x.val : ℤ) = (z : ℚ)
      rw [image3_get_coe]
      exact hz
    rw [extract_coordinates_val_of_sum_int _ _ _ _ _ _ _ _ z hsum, ← hz]
  · rw [extract_coordinates_val_float _ _ _ _ _ _ _ _ (by simpa using hdt)]
    rw [extractSum_val_int2 dt _ fixer interp _ _ _ _ H W fill check
      (Int.ofNat_nonneg _) (by exact_mod_cast y.isLt)
      (Int.ofNat_nonneg _) (by exact_mod_cast x.isLt) (hid y) (hidW x)]
    show Image3.get ⟨dt, pix⟩ c (y.val : ℤ) (x.val : ℤ) = pix y x c
    exact image3_get_coe ⟨dt, pix⟩ y x c

/-- The rank-4 core of the identity-transform round trip. -/
lemma affine_core4_identity {B H W C : ℕ} (img : Image4 B H W C)
    (mode : String) (fixer : ℤ → ℤ → ℤ) (hmode : INDEX_FIXERS mode = some fixer)
    (interp : InterpOrder) (fill : PyScalar) (check : Bool)
    (himg : img.intvals)
    (hmir : mode = "mirror" → interp = .linear → 2 ≤ B ∧ 2 ≤ H ∧ 2 ≤ W) :
    affine_transform_core4 img (fun _ => identityTransform) H W interp fixer fill
      check = .ok img := by
  unfold affine_transform_core4
  simp only [srcCoordX_id, srcCoordY_id]
  have hidB : ∀ (b : Fin B), fixer (b.val : ℤ) (B : ℤ) = (b.val : ℤ) := fun b =>
    index_fixer_id mode fixer hmode _ _ (Int.ofNat_nonneg _) (by exact_mod_cast b.isLt)
  have hid : ∀ (y : Fin H), fixer (y.val : ℤ) (H : ℤ) = (y.val : ℤ) := fun y =>
    index_fixer_id mode fixer hmode _ _ (Int.ofNat_nonneg _) (by exact_mod_cast y.isLt)
  have hidW : ∀ (x : Fin W), fixer (x.val : ℤ) (W : ℤ) = (x.val : ℤ) := fun x =>
    index_fixer_id mode fixer hmode _ _ (Int.ofNat_nonneg _) (by exact_mod_cast x.isLt)
  rw [if_pos]
  case hc =>
    intro b y x
    exact extractInBounds_int3 fixer interp _ _ _ _ _ _ B H W
      (Int.ofNat_nonneg _) (by exact_mod_cast b.isLt)
      (Int.ofNat_nonneg _) (by exact_mod_cast y.isLt)
      (Int.ofNat_nonneg _) (by exact_mod_cast x.isLt)
      (hidB b) (hid y) (hidW x)
      (fun hlin i => index_fixer_mem mode fixer hmode i B
        (by exact_mod_cast b.pos) (fun hmo => by exact_mod_cast (hmir hmo hlin).1))
      (fun hlin i => index_fixer_mem mode fixer hmode i H
        (by exact_mod_cast y.pos) (fun hmo => by exact_mod_cast (hmir hmo hlin).2.1))
      (fun hlin i => index_fixer_mem mode fixer hmode i W
        (by exact_mod_cast x.pos) (fun hmo => by exact_mod_cast (hmir hmo hlin).2.2))
  congr 1
  obtain ⟨dt, pix⟩ := img
  simp only [Image4.mk.injEq, true_and]
  refine funext fun b => funext fun y => funext fun x => funext fun c => ?_
  by_cases hdt : dt.isInteger = true
  · obtain ⟨z, hz⟩ := himg hdt b y x c
    have hsum : (extractSum dt
        (fun l => match l with
          | [ib, iy, ix] => Image4.get ⟨dt, pix⟩ c ib iy ix
          | _ => 0)
        fixer interp
        [⟨.int32, ((b.val : ℤ) : ℚ)⟩, ⟨.float32, ((y.val : ℤ) : ℚ)⟩,
         ⟨.float32, ((x.val : ℤ) : ℚ)⟩]
        [B, H, W] fill check).val = (z : ℚ) := by
      rw [extractSum_val_int3 dt _ fixer interp _ _ _ _ _ _ B H W fill check
        (Int.ofNat_nonneg _) (by exact_mod_cast b.isLt)
        (Int.ofNat_nonneg _) (by exact_mod_cast y.isLt)
        (Int.ofNat_nonneg _) (by exact_mod_cast x.isLt)
        (hidB b) (hid y) (hidW x)]
      show Image4.get ⟨dt, pix⟩ c (b.val : ℤ) (y.val : ℤ) (x.val : ℤ) = (z : ℚ)
      rw [image4_get_coe]
      exact hz
    have hcast : ((b.val : ℚ) : ℚ) = ((b.val : ℤ) : ℚ) := by push_cast; rfl
    rw [show (⟨.int32, (b.val : ℚ)⟩ : MxScalar) = ⟨.int32, ((b.val : ℤ) : ℚ)⟩ by
      rw [hcast]]
    rw [extract_coordinates_val_of_sum_int _ _ _ _ _ _ _ _ z hsum, ← hz]
  · rw [show (⟨.int32, (b.val : ℚ)⟩ : MxScalar) = ⟨.int32, ((b.val : ℤ) : ℚ)⟩ by
      push_cast; rfl]
    rw [extract_coordinates_val_float _ _ _ _ _ _ _ _ (by simpa using hdt)]
    rw [extractSum_val_int3 dt _ fixer interp _ _ _ _ _ _ B H W fill check
      (Int.ofNat_nonneg _) (by exact_mod_cast b.isLt)
      (Int.ofNat_nonneg _) (by exact_mod_cast y.isLt)
      (Int.ofNat_nonneg _) (by exact_mod_cast x.isLt)
      (hidB b) (hid y) (hidW x)]
    show Image4.get ⟨dt, pix⟩ c (b.val : ℤ) (y.val : ℤ) (x.val : ℤ) = pix b y x c
    exact image4_get_coe ⟨dt, pix⟩ b y x c

lemma fill_mode_mem_of_fixer (mode : String) (fixer : ℤ → ℤ → ℤ)
    (h : INDEX_FIXERS mode = some fixer) : mode ∈ AFFINE_TRANSFORM_FILL_MODES := by
  unfold INDEX_FIXERS at h
  split_ifs at h <;> simp_all [AFFINE_TRANSFORM_FILL_MODES]

/-! ## C7: identity affine transform round trip -/

/-- C7 (amended): for every rank-3 or rank-4 image, `affine_transform` with
the identity transform `(1,0,0,0,1,0,0,0)` (target size is always the source
spatial size) returns the image unchanged for both interpolations and any
fill mode — except `bilinear` with `mirror` fill on an image one of whose
gathered axes (batch, height or width) has size 1: there the mirror fixer
reduces modulo `2*(size-1) = 0` and the second linear tap's gather index
leaves the axis, which is undefined behaviour in the runtime. -/
theorem affine_transform_identity (interpS : String) (interp : InterpOrder)
    (hinterp : AFFINE_TRANSFORM_INTERPOLATIONS interpS = some interp)
    (mode : String) (fixer : ℤ → ℤ → ℤ) (hmode : INDEX_FIXERS mode = some fixer)
    (fv : PyScalar) :
    (∀ (H W C : ℕ) (img : Image3 H W C), img.intvals →
      (mode = "mirror" → interp = .linear → 2 ≤ H ∧ 2 ≤ W) →
      affine_transform (.arr3 H W C img) (.single identityTransform) interpS mode fv
        "channels_last" = .ok (.arr3 H W C img)) ∧
    (∀ (B H W C : ℕ) (img : Image4 B H W C), img.intvals →
      (mode = "mirror" → interp = .linear → 2 ≤ B ∧ 2 ≤ H ∧ 2 ≤ W) →
      affine_transform (.arr4 B H W C img) (.single identityTransform) interpS mode fv
        "channels_last" = .ok (.arr4 B H W C img)) := by
  have hmem : mode ∈ AFFINE_TRANSFORM_FILL_MODES := fill_mode_mem_of_fixer mode fixer hmode
  constructor
  · intro H W C img himg hm
    simp [affine_transform, hinterp, hmode, hmem,
      affine_core3_identity img mode fixer hmode interp fv
        (decide (mode = "constant")) himg hm]
  · intro B H W C img himg hm
    simp [affine_transform, hinterp, hmode, hmem,
      affine_core4_identity img mode fixer hmode interp fv
        (decide (mode = "constant")) himg hm]

theorem affine_transform_identity_witness :
    affine_transform (.arr3 2 2 1 ⟨.float32, fun _ _ _ => 3⟩)
      (.single identityTransform) "bilinear" "constant" (.pyInt 0) "channels_last"
      = .ok (.arr3 2 2 1 ⟨.float32, fun _ _ _ => 3⟩) ∧
    affine_transform (.arr4 2 2 2 1 ⟨.int32, fun _ _ _ _ => 7⟩)
      (.single identityTransform) "nearest" "mirror" (.pyFloat (1/2)) "channels_last"
      = .ok (.arr4 2 2 2 1 ⟨.int32, fun _ _ _ _ => 7⟩) := by
  constructor
  · exact (affine_transform_identity "bilinear" .linear
      (by simp [AFFINE_TRANSFORM_INTERPOLATIONS]) "constant"
      (fun index size => clip index 0 (size - 1))
      (by simp [INDEX_FIXERS]) (.pyInt 0)).1 2 2 1 _
      (fun h => absurd h (by decide)) (fun h => absurd h (by decide))
  · exact (affine_transform_identity "nearest" .nearest
      (by simp [AFFINE_TRANSFORM_INTERPOLATIONS]) "mirror" mirror_index_fixer
      (by simp [INDEX_FIXERS]) (.pyFloat (1/2))).2 2 2 2 1 _
      (fun _ => fun b y x c => ⟨7, by norm_num⟩) (fun _ h => nomatch h)

/-- C7 counterexample: on a 1×1×1 image, `bilinear` interpolation with the
`mirror` fill mode makes the second linear tap's fixed index `mirror(1,1) = 1`
leave the size-1 axis, so the identity transform does not return the image:
the gather is undefined. -/
theorem affine_identity_mirror_size_one_fails :
    affine_transform (.arr3 1 1 1 ⟨.float32, fun _ _ _ => 5⟩)
      (.single identityTransform) "bilinear" "mirror" (.pyInt 0) "channels_last"
      = .undefined ∧
    ¬(affine_transform (.arr3 1 1 1 ⟨.float32, fun _ _ _ => 5⟩)
      (.single identityTransform) "bilinear" "mirror" (.pyInt 0) "channels_last"
      = .ok (.arr3 1 1 1 ⟨.float32, fun _ _ _ => 5⟩)) := by
  have hcore : affine_transform_core3 (⟨.float32, fun _ _ _ => 5⟩ : Image3 1 1 1)
      identityTransform 1 1 .linear mirror_index_fixer (.pyInt 0)
      false = .undefined := by
    unfold affine_transform_core3
    rw [if_neg]
    case hnc =>
      intro hall
      have h := hall 0 0
      revert h
      norm_num [srcCoordY, srcCoordX, identityTransform, extractInBounds, extractCands,
        axisCandidates, interpCandidates, linear_indices_and_weights, combos,
        mirror_index_fixer, Fin.val_zero]
  have hmain : affine_transform (.arr3 1 1 1 ⟨.float32, fun _ _ _ => 5⟩)
      (.single identityTransform) "bilinear" "mirror" (.pyInt 0) "channels_last"
      = .undefined := by
    simp [affine_transform, AFFINE_TRANSFORM_INTERPOLATIONS,
      AFFINE_TRANSFORM_FILL_MODES, INDEX_FIXERS, hcore]
  exact ⟨hmain, by rw [hmain]; exact fun h => nomatch h⟩

/-! ## C8: nearest resize of a 2x2 image to 4x4 -/

lemma extractSum_nearest2 (srcD : MxDtype) (src : List ℤ → ℚ) (fixer : ℤ → ℤ → ℤ)
    (c1 c2 : MxScalar) (n1 n2 : ℕ) (fill : PyScalar) :
    extractSum srcD src fixer .nearest [c1, c2] [n1, n2] fill false =
      ⟨srcD, src [fixer (nearestIdx c1) n1, fixer (nearestIdx c2) n2]⟩ := by
  simp [extractSum, extractCands, axisCandidates, interpCandidates,
    nearest_indices_and_weights, combos, combTerm, applyWeight, reduceMulW, Weight.mul]

lemma extract_coordinates_eq_astype_sum (srcD : MxDtype) (src : List ℤ → ℚ)
    (fixer : ℤ → ℤ → ℤ) (interp : InterpOrder) (coords : List MxScalar)
    (sizes : List ℕ) (fill : PyScalar) (check : Bool) (v : ℚ)
    (hsum : extractSum srcD src fixer interp coords sizes fill check = ⟨srcD, v⟩) :
    extract_coordinates srcD src fixer interp coords sizes fill check =
      astype srcD ⟨srcD, v⟩ := by
  unfold extract_coordinates
  rw [hsum]
  simp

lemma astype_roundtrip (dt : MxDtype) (q : ℚ)
    (h : dt.isInteger = true → ∃ z : ℤ, q = (z : ℚ)) :
    (astype dt ⟨dt, q⟩).val = q := by
  unfold astype
  split
  · obtain ⟨z, hz⟩ := h (by assumption)
    rw [hz, ratTrunc_intCast]
  · rfl

lemma extractInBounds_nearest2_clip (c1 c2 : MxScalar) (n1 n2 : ℕ)
    (h1 : 1 ≤ n1) (h2 : 1 ≤ n2) :
    extractInBounds (fun index size => clip index 0 (size - 1)) .nearest
      [c1, c2] [n1, n2] = true := by
  simp only [extractInBounds, extractCands, axisCandidates, interpCandidates,
    nearest_indices_and_weights, combos, List.zip_cons_cons, List.zip_nil_right,
    List.map_cons, List.map_nil, List.flatMap_cons, List.flatMap_nil,
    List.append_nil, List.all_cons, List.all_nil, Bool.and_true,
    decide_eq_true_eq]
  rw [Bool.and_eq_true, decide_eq_true_eq, decide_eq_true_eq]
  exact ⟨clip_mem (nearestIdx c1) n1 (by exact_mod_cast h1),
    clip_mem (nearestIdx c2) n2 (by exact_mod_cast h2)⟩

lemma resize_core_2x2 (dt : MxDtype) (pix : Fin 2 → Fin 2 → Fin 1 → ℚ)
    (himg : (Image3.mk dt pix).intvals) :
    affine_transform_core3 (⟨dt, pix⟩ : Image3 2 2 1) (resizeTransform 2 2 (4, 4)) 4 4
      .nearest (fun index size => clip index 0 (size - 1)) (.pyInt 0) false =
      .ok ⟨dt, fun y x c => pix ⟨y.val / 2, by omega⟩ ⟨x.val / 2, by omega⟩ c⟩ := by
  have hsrcY : ∀ (y x : Fin 4),
      srcCoordY (resizeTransform 2 2 (4, 4)) y.val x.val = (y.val : ℚ) / 2 := by
    intro y x
    simp [srcCoordY, resizeTransform]
    ring
  have hsrcX : ∀ (y x : Fin 4),
      srcCoordX (resizeTransform 2 2 (4, 4)) y.val x.val = (x.val : ℚ) / 2 := by
    intro y x
    simp [srcCoordX, resizeTransform]
    ring
  unfold affine_transform_core3
  rw [if_pos]
  case hc =>
    intro y x
    exact extractInBounds_nearest2_clip _ _ 2 2 (by norm_num) (by norm_num)
  congr 1
  simp only [Image3.mk.injEq, true_and]
  funext y x c
  simp only [hsrcY, hsrcX]
  rw [extract_coordinates_eq_astype_sum _ _ _ _ _ _ _ _ _
    (extractSum_nearest2 dt _ _ ⟨.float32, (y.val : ℚ) / 2⟩ ⟨.float32, (x.val : ℚ) / 2⟩
      2 2 (.pyInt 0))]
  fin_cases y <;> fin_cases x <;>
    (norm_num [nearestIdx, MxDtype.isInteger, ratTrunc, rint, clip, Image3.get]
     exact astype_roundtrip dt _ (fun hdt => himg hdt _ _ c))

/-- C8: `resize` of every 2x2 single-channel image to 4x4 with `nearest`
interpolation reproduces each source pixel exactly in its 2x2 output block:
output pixel `(y, x)` is source pixel `(y / 2, x / 2)`, with no blending. -/
theorem resize_2x2_nearest_blocks (img : Image3 2 2 1) (himg : img.intvals) :
    resize (.arr3 2 2 1 img) (4, 4) "nearest" false "channels_last" =
      .ok (.arr3 4 4 1 ⟨img.dtype, fun y x c =>
        img.pix ⟨y.val / 2, by omega⟩ ⟨x.val / 2, by omega⟩ c⟩) := by
  obtain ⟨dt, pix⟩ := img
  have hcore := resize_core_2x2 dt pix himg
  simp [resize, AFFINE_TRANSFORM_INTERPOLATIONS, hcore]

theorem resize_2x2_nearest_blocks_witness :
    resize (.arr3 2 2 1 ⟨.int32, fun y x _ => ((10 * (2 * y.val + x.val + 1) : ℕ) : ℚ)⟩)
      (4, 4) "nearest" false "channels_last" =
      .ok (.arr3 4 4 1 ⟨.int32, fun y x c =>
        (fun (y : Fin 2) (x : Fin 2) (_ : Fin 1) =>
            ((10 * (2 * y.val + x.val + 1) : ℕ) : ℚ))
          ⟨y.val / 2, by omega⟩ ⟨x.val / 2, by omega⟩ c⟩) :=
  resize_2x2_nearest_blocks ⟨.int32, fun y x _ => ((10 * (2 * y.val + x.val + 1) : ℕ) : ℚ)⟩
    (fun _ y x c => ⟨((10 * (2 * y.val + x.val + 1) : ℕ) : ℤ), by push_cast; ring⟩)

/-! ## C9: antialiased resize always fails first -/

/-- C9: for every combination of image (any rank, even an invalid one), size,
interpolation string (even an unknown one) and data_format, `resize` with
`antialias = true` fails with the NotSupported kind; the rejection precedes
every other validation and any computation. -/
theorem resize_antialias_not_supported (image : MxArray) (size : ℕ × ℕ)
    (interpolation : String) (data_format : String) :
    resize image size interpolation true data_format = .error .notSupported := rfl

/-! ## C10: integer-source fill values truncate toward zero -/

/-- C10: when the input has an integer dtype, a Python scalar `fill_value` is
coerced with `int(fill_value)` — truncation toward zero (2.7 becomes 2,
-2.7 becomes -2), not rounding to nearest (which would send -2.7 to -3). -/
theorem map_coordinates_int_fill_truncates :
    (∀ (srcD : MxDtype) (src : List ℤ → ℚ) (sizes : List ℕ) (coords : List MxScalar)
        (order : ℕ) (fill_mode : String) (q : ℚ),
      srcD.isInteger = true →
      map_coordinates_elem srcD src sizes coords order fill_mode (.pyFloat q) =
        map_coordinates_elem srcD src sizes coords order fill_mode
          (.pyInt (ratTrunc q))) ∧
    ratTrunc (27 / 10 : ℚ) = 2 ∧ ratTrunc (-27 / 10 : ℚ) = -2 ∧
    rint (-27 / 10 : ℚ) = -3 := by
  refine ⟨fun srcD src sizes coords order fill_mode q h => ?_, ?_, ?_, ?_⟩
  · simp [map_coordinates_elem, h, PyScalar.toPyInt]
  · norm_num [ratTrunc]
  · norm_num [ratTrunc]
  · norm_num [rint, show ⌊(-27 / 10 : ℚ)⌋ = -3 by norm_num]

theorem map_coordinates_int_fill_truncates_witness :
    map_coordinates_elem .int32 (fun _ => 0) [3] [⟨.float32, -1⟩] 1 "constant"
      (.pyFloat (27 / 10)) =
    map_coordinates_elem .int32 (fun _ => 0) [3] [⟨.float32, -1⟩] 1 "constant"
      (.pyInt (ratTrunc (27 / 10))) :=
  map_coordinates_int_fill_truncates.1 .int32 (fun _ => 0) [3] [⟨.float32, -1⟩] 1
    "constant" (27 / 10) rfl

/-! ## Integrality of integer-dtype values through the resampler -/

/-- The tensor-runtime invariant for one element: an integer dtype carries an
integral value. -/
def MxScalar.intval (s : MxScalar) : Prop :=
  s.dtype.isInteger = true → ∃ z : ℤ, s.val = (z : ℚ)

/-- The same invariant for a weight. -/
def Weight.intval : Weight → Prop
  | .pyOne => True
  | .arr d v => d.isInteger = true → ∃ z : ℤ, v = (z : ℚ)

lemma promoteDtype_int_iff (a b : MxDtype) :
    (promoteDtype a b).isInteger = true ↔ a.isInteger = true ∧ b.isInteger = true := by
  cases ha : a.isInteger <;> cases hb : b.isInteger <;> simp [promoteDtype, ha, hb]

lemma Weight.mul_intval {a b : Weight} (ha : a.intval) (hb : b.intval) :
    (a.mul b).intval := by
  cases a with
  | pyOne => simpa [Weight.mul]
  | arr d v =>
    cases b with
    | pyOne => simpa [Weight.mul]
    | arr e w =>
      intro hint
      obtain ⟨hd, he⟩ := (promoteDtype_int_iff d e).mp hint
      obtain ⟨z1, hz1⟩ := ha hd
      obtain ⟨z2, hz2⟩ := hb he
      exact ⟨z1 * z2, by push_cast [hz1, hz2]; ring⟩

lemma foldl_mulW_intval (ws : List Weight) :
    ∀ (w : Weight), w.intval → (∀ y ∈ ws, y.intval) →
      (ws.foldl Weight.mul w).intval := by
  induction ws with
  | nil => intro w hw _; simpa using hw
  | cons x xs ih =>
    intro w hw h
    rw [List.foldl_cons]
    exact ih (w.mul x) (Weight.mul_intval hw (h x (by simp)))
      (fun y hy => h y (by simp [hy]))

lemma reduceMulW_intval (ws : List Weight) (h : ∀ w ∈ ws, w.intval) :
    (reduceMulW ws).intval := by
  cases ws with
  | nil => simp [reduceMulW, Weight.intval]
  | cons w ws =>
    rw [reduceMulW]
    exact foldl_mulW_intval ws w (h w (by simp)) (fun y hy => h y (by simp [hy]))

lemma addS_intval {a b : MxScalar} (ha : a.intval) (hb : b.intval) :
    (addS a b).intval := by
  intro hint
  simp only [addS] at hint ⊢
  obtain ⟨hda, hdb⟩ := (promoteDtype_int_iff a.dtype b.dtype).mp (by simpa using hint)
  obtain ⟨z1, hz1⟩ := ha hda
  obtain ⟨z2, hz2⟩ := hb hdb
  exact ⟨z1 + z2, by push_cast [hz1, hz2]; ring⟩

lemma applyWeight_intval {c : MxScalar} {w : Weight} (hc : c.intval) (hw : w.intval) :
    (applyWeight c w).intval := by
  cases w with
  | pyOne => simpa [applyWeight]
  | arr d v =>
    intro hint
    simp only [applyWeight] at hint ⊢
    obtain ⟨hdc, hdw⟩ := (promoteDtype_int_iff c.dtype d).mp (by simpa using hint)
    obtain ⟨z1, hz1⟩ := hc hdc
    obtain ⟨z2, hz2⟩ := hw hdw
    exact ⟨z1 * z2, by push_cast [hz1, hz2]; ring⟩

lemma mxWhere_intval {cond : Bool} {a : MxScalar} {fill : PyScalar}
    (ha : a.intval) : (mxWhere cond a fill).intval := by
  intro hint
  by_cases hda : a.dtype.isInteger = true
  · cases fill with
    | pyFloat q =>
      have hint2 : (if a.dtype.isInteger = true then MxDtype.float32
          else a.dtype).isInteger = true := hint
      rw [if_pos hda] at hint2
      exact absurd hint2 (by decide)
    | pyInt n =>
      obtain ⟨z, hz⟩ := ha hda
      cases cond with
      | true => exact ⟨z, hz⟩
      | false => exact ⟨n, rfl⟩
  · cases fill with
    | pyFloat q =>
      have hint2 : (if a.dtype.isInteger = true then MxDtype.float32
          else a.dtype).isInteger = true := hint
      rw [if_neg hda] at hint2
      exact absurd hint2 hda
    | pyInt n =>
      have hint2 : (if a.dtype.isInteger = true then a.dtype
          else a.dtype).isInteger = true := hint
      rw [if_neg hda] at hint2
      exact absurd hint2 hda

lemma foldl_addS_intval (l : List MxScalar) :
    ∀ (init : MxScalar), init.intval → (∀ s ∈ l, s.intval) →
      (l.foldl addS init).intval := by
  induction l with
  | nil => intro init hi _; simpa using hi
  | cons x xs ih =>
    intro init hi h
    rw [List.foldl_cons]
    exact ih (addS init x) (addS_intval hi (h x (by simp)))
      (fun s hs => h s (by simp [hs]))

lemma axisCandidates_weights_intval (fixer : ℤ → ℤ → ℤ) (interp : InterpOrder)
    (c : MxScalar) (n : ℕ) (hc : c.intval) :
    ∀ t ∈ axisCandidates fixer interp c n, (Prod.snd (Prod.snd t)).intval := by
  intro t ht
  cases interp with
  | nearest =>
    simp only [axisCandidates, interpCandidates, nearest_indices_and_weights,
      List.map_cons, List.map_nil, List.mem_singleton] at ht
    subst ht
    trivial
  | linear =>
    simp only [axisCandidates, interpCandidates, linear_indices_and_weights,
      List.map_cons, List.map_nil, List.mem_cons, List.not_mem_nil, or_false] at ht
    rcases ht with rfl | rfl
    · intro hint
      obtain ⟨z, hz⟩ := hc hint
      exact ⟨1, by rw [hz]; push_cast [Int.floor_intCast]; ring⟩
    · intro hint
      obtain ⟨z, hz⟩ := hc hint
      exact ⟨0, by rw [hz]; push_cast [Int.floor_intCast]; ring⟩

lemma combos_mem {α : Type} :
    ∀ (ls : List (List α)) (comb : List α), comb ∈ combos ls →
      ∀ t ∈ comb, ∃ l ∈ ls, t ∈ l := by
  intro ls
  induction ls with
  | nil =>
    intro comb hc t ht
    simp only [combos, List.mem_singleton] at hc
    subst hc
    simp at ht
  | cons l lt ih =>
    intro comb hc t ht
    simp only [combos, List.mem_flatMap, List.mem_map] at hc
    obtain ⟨x, hx, comb0, hcomb0, rfl⟩ := hc
    rcases List.mem_cons.mp ht with rfl | ht2
    · exact ⟨l, by simp, hx⟩
    · obtain ⟨l2, hl2, htl2⟩ := ih comb0 hcomb0 t ht2
      exact ⟨l2, by simp [hl2], htl2⟩

lemma combTerm_intval (srcD : MxDtype) (src : List ℤ → ℚ) (fill : PyScalar)
    (check : Bool) (comb : List (ℤ × Bool × Weight))
    (hsrc : srcD.isInteger = true → ∀ l, ∃ z : ℤ, src l = (z : ℚ))
    (hw : ∀ t ∈ comb, (Prod.snd (Prod.snd t)).intval) :
    (combTerm srcD src fill check comb).intval := by
  unfold combTerm
  apply applyWeight_intval
  · split
    · exact mxWhere_intval (fun hint => hsrc hint _)
    · exact fun hint => hsrc hint _
  · apply reduceMulW_intval
    intro w hwmem
    simp only [List.mem_map] at hwmem
    obtain ⟨t, ht, rfl⟩ := hwmem
    exact hw t ht

lemma extractSum_intval (srcD : MxDtype) (src : List ℤ → ℚ) (fixer : ℤ → ℤ → ℤ)
    (interp : InterpOrder) (coords : List MxScalar) (sizes : List ℕ)
    (fill : PyScalar) (check : Bool)
    (hsrc : srcD.isInteger = true → ∀ l, ∃ z : ℤ, src l = (z : ℚ))
    (hcoords : ∀ c ∈ coords, MxScalar.intval c) :
    (extractSum srcD src fixer interp coords sizes fill check).intval := by
  unfold extractSum
  cases hmap : (combos (extractCands fixer interp coords sizes)).map
      (combTerm srcD src fill check) with
  | nil => exact fun _ => ⟨0, by norm_num⟩
  | cons t ts =>
    have hall : ∀ s ∈ t :: ts, MxScalar.intval s := by
      rw [← hmap]
      intro s hs
      simp only [List.mem_map] at hs
      obtain ⟨comb, hcomb, rfl⟩ := hs
      apply combTerm_intval _ _ _ _ _ hsrc
      intro tt htt
      obtain ⟨l, hl, htl⟩ := combos_mem _ comb hcomb tt htt
      simp only [extractCands, List.mem_map] at hl
      obtain ⟨p, hp, rfl⟩ := hl
      exact axisCandidates_weights_intval fixer interp p.1 p.2
        (hcoords p.1 (List.of_mem_zip hp).1) tt htl
    exact foldl_addS_intval ts t (hall t (by simp)) (fun s hs => hall s (by simp [hs]))

lemma extract_coordinates_val_rint (srcD : MxDtype) (src : List ℤ → ℚ)
    (fixer : ℤ → ℤ → ℤ) (interp : InterpOrder) (coords : List MxScalar)
    (sizes : List ℕ) (fill : PyScalar) (check : Bool)
    (hdt : srcD.isInteger = true)
    (hsrc : srcD.isInteger = true → ∀ l, ∃ z : ℤ, src l = (z : ℚ))
    (hcoords : ∀ c ∈ coords, MxScalar.intval c) :
    (extract_coordinates srcD src fixer interp coords sizes fill check).val =
      ((rint (extractSum srcD src fixer interp coords sizes fill check).val : ℤ) : ℚ) := by
  unfold extract_coordinates astype
  by_cases hres :
      (extractSum srcD src fixer interp coords sizes fill check).dtype.isInteger = true
  · obtain ⟨z, hz⟩ :=
      extractSum_intval srcD src fixer interp coords sizes fill check hsrc hcoords hres
    simp [hdt, hres, hz, rint_intCast, ratTrunc_intCast, apply_ite MxScalar.val]
  · simp [hdt, hres, ratTrunc_intCast, apply_ite MxScalar.val]

/-! ## C2: dtype preservation and integer rounding -/

/-- C2: whenever `map_coordinates` returns a value, its dtype is the source
dtype; and for an integer-dtype source with order-1 interpolation, the value
is the round-to-nearest of the accumulated weighted sum, cast back — in
particular it is never fractional. -/
theorem output_dtype_preserved_and_int_rounded
    (srcD : MxDtype) (src : List ℤ → ℚ) (sizes : List ℕ) (coords : List MxScalar)
    (order : ℕ) (fill_mode : String) (fv : PyScalar) (v : MxScalar)
    (h : map_coordinates_elem srcD src sizes coords order fill_mode fv = .ok v) :
    v.dtype = srcD ∧
    (srcD.isInteger = true → order = 1 →
      (∀ l, ∃ z : ℤ, src l = (z : ℚ)) →
      (∀ c ∈ coords, MxScalar.intval c) →
      ∀ fixer, INDEX_FIXERS fill_mode = some fixer →
        v.val = ((rint (extractSum srcD src fixer .linear coords sizes fv.toPyInt
          (decide (fill_mode = "constant"))).val : ℤ) : ℚ) ∧
        ∃ z : ℤ, v.val = (z : ℚ)) := by
  by_cases hlen : coords.length = sizes.length
  case neg => simp [map_coordinates_elem, hlen] at h
  case pos =>
  rcases hfix : INDEX_FIXERS fill_mode with _ | fixer0
  case none => simp [map_coordinates_elem, hlen, hfix] at h
  case some =>
  rcases horder0 : (if order = 0 then some InterpOrder.nearest
      else if order = 1 then some InterpOrder.linear else none) with _ | interp0
  case none => simp [map_coordinates_elem, hlen, hfix, horder0] at h
  case some =>
  by_cases hbound : extractInBounds fixer0 interp0 coords sizes = true
  case neg => simp [map_coordinates_elem, hlen, hfix, horder0, hbound] at h
  case pos =>
  have hv : extract_coordinates srcD src fixer0 interp0 coords sizes
      (if srcD.isInteger = true then fv.toPyInt else fv)
      (decide (fill_mode = "constant")) = v := by
    simpa [map_coordinates_elem, hlen, hfix, horder0, hbound] using h
  subst hv
  refine ⟨rfl, ?_⟩
  intro hdt horder hsrc hcoords fixer hfixer
  obtain rfl : fixer0 = fixer := Option.some.inj hfixer
  rw [horder] at horder0
  norm_num at horder0
  subst horder0
  rw [if_pos hdt]
  refine ⟨extract_coordinates_val_rint srcD src fixer0 .linear coords sizes
    fv.toPyInt _ hdt (fun _ => hsrc) hcoords, ?_⟩
  exact ⟨_, extract_coordinates_val_rint srcD src fixer0 .linear coords sizes
    fv.toPyInt _ hdt (fun _ => hsrc) hcoords⟩

theorem output_dtype_preserved_and_int_rounded_witness :
    (extract_coordinates .int32 (fun _ => ((10 : ℤ) : ℚ))
        (fun index size => clip index 0 (size - 1)) .linear
        [⟨.float32, 1/2⟩] [3] (.pyInt 0) true).dtype = .int32 ∧
    (extract_coordinates .int32 (fun _ => ((10 : ℤ) : ℚ))
        (fun index size => clip index 0 (size - 1)) .linear
        [⟨.float32, 1/2⟩] [3] (.pyInt 0) true).val =
      ((rint (extractSum .int32 (fun _ => ((10 : ℤ) : ℚ))
        (fun index size => clip index 0 (size - 1)) .linear
        [⟨.float32, 1/2⟩] [3] (PyScalar.pyInt 0).toPyInt
        (decide (("constant" : String) = "constant"))).val : ℤ) : ℚ) := by
  have hEval : map_coordinates_elem .int32 (fun _ => ((10 : ℤ) : ℚ)) [3]
      [⟨.float32, 1/2⟩] 1 "constant" (.pyInt 0) =
      .ok (extract_coordinates .int32 (fun _ => ((10 : ℤ) : ℚ))
        (fun index size => clip index 0 (size - 1)) .linear
        [⟨.float32, 1/2⟩] [3] (.pyInt 0) true) := by
    norm_num [map_coordinates_elem, INDEX_FIXERS, extractInBounds, extractCands,
      axisCandidates, interpCandidates, linear_indices_and_weights, combos, clip,
      MxDtype.isInteger, PyScalar.toPyInt]
  have W := output_dtype_preserved_and_int_rounded .int32 (fun _ => ((10 : ℤ) : ℚ))
    [3] [⟨.float32, 1/2⟩] 1 "constant" (.pyInt 0) _ hEval
  refine ⟨W.1, (W.2 rfl rfl (fun l => ⟨10, rfl⟩) ?_ _ (by simp [INDEX_FIXERS])).1⟩
  intro c hc
  simp only [List.mem_singleton] at hc
  subst hc
  intro hint
  exact absurd hint (by decide)

/-! ## C1: validity masking is exactly constant-mode fill substitution -/

/-- Modelled from the spec/claim wording (for comparison with the
source-derived `extractSum`): for each interpolated axis the kernel's raw
candidates are formed; a combination's gathered value — gathered at the
boundary-fixed indices — is replaced by the fill value exactly where at
least one axis's raw (unfixed) candidate index violates
`0 ≤ raw_index < size`; each combination is weighted by the product of its
candidates' weights and the results are summed. -/
def extractMaskedSpec (src : List ℤ → ℚ) (fixer : ℤ → ℤ → ℤ)
    (interp : InterpOrder) (coords : List MxScalar) (sizes : List ℕ)
    (fillv : ℚ) : ℚ :=
  ((combos ((coords.zip sizes).map fun p => interpCandidates interp p.1)).map
    fun comb =>
      (if (comb.zip sizes).all (fun t => decide (0 ≤ t.1.1 ∧ t.1.1 < (t.2 : ℤ))) then
        src ((comb.zip sizes).map fun t => fixer t.1.1 t.2)
      else fillv) * ((comb.map fun t => t.2.val).prod)).sum

lemma combTerm_fill_irrel (srcD : MxDtype) (src : List ℤ → ℚ) (f1 f2 : PyScalar)
    (comb : List (ℤ × Bool × Weight)) :
    combTerm srcD src f1 false comb = combTerm srcD src f2 false comb := rfl

lemma extract_coordinates_fill_irrel (srcD : MxDtype) (src : List ℤ → ℚ)
    (fixer : ℤ → ℤ → ℤ) (interp : InterpOrder) (coords : List MxScalar)
    (sizes : List ℕ) (f1 f2 : PyScalar) :
    extract_coordinates srcD src fixer interp coords sizes f1 false =
      extract_coordinates srcD src fixer interp coords sizes f2 false := by
  unfold extract_coordinates extractSum
  rw [show combTerm srcD src f1 false = combTerm srcD src f2 false from
    funext fun comb => combTerm_fill_irrel srcD src f1 f2 comb]

lemma combos_length {α : Type} :
    ∀ (ls : List (List α)) (comb : List α), comb ∈ combos ls →
      comb.length = ls.length := by
  intro ls
  induction ls with
  | nil =>
    intro comb hc
    simp only [combos, List.mem_singleton] at hc
    simp [hc]
  | cons l lt ih =>
    intro comb hc
    simp only [combos, List.mem_flatMap, List.mem_map] at hc
    obtain ⟨x, _, comb0, hcomb0, rfl⟩ := hc
    simp [ih comb0 hcomb0]

lemma sum_flatMapQ {α : Type} (g : α → List ℚ) (l : List α) :
    (l.flatMap g).sum = (l.map fun a => (g a).sum).sum := by
  induction l with
  | nil => simp
  | cons x xs ih => simp [List.flatMap_cons, List.sum_append, ih]

lemma combos_map_axiswise {α β : Type} (G : α → ℕ → β) :
    ∀ (ps : List (List α × ℕ)),
    combos (ps.map fun p => p.1.map (fun a => G a p.2)) =
      (combos (ps.map Prod.fst)).map
        fun comb => (comb.zip (ps.map Prod.snd)).map fun q => G q.1 q.2 := by
  intro ps
  induction ps with
  | nil => simp [combos]
  | cons p pt ih =>
    obtain ⟨l, n⟩ := p
    simp only [List.map_cons, combos, ih, List.flatMap_map, List.map_flatMap]
    congr 1
    funext x
    rw [List.map_map, List.map_map]
    congr 1

lemma all_map_id {α : Type} (l : List α) (f : α → Bool) :
    (l.map f).all id = l.all f := by
  induction l with
  | nil => rfl
  | cons x xs ih => simp [List.all_cons, ih]

lemma extractCands_combos (fixer : ℤ → ℤ → ℤ) (interp : InterpOrder)
    (coords : List MxScalar) (sizes : List ℕ) :
    combos (extractCands fixer interp coords sizes) =
      (combos ((coords.zip sizes).map fun p => interpCandidates interp p.1)).map
        fun comb => (comb.zip ((coords.zip sizes).map Prod.snd)).map
          fun q => (fixer q.1.1 q.2, decide (0 ≤ q.1.1 ∧ q.1.1 < (q.2 : ℤ)), q.1.2) := by
  have h := combos_map_axiswise
    (fun (a : ℤ × Weight) (n : ℕ) =>
      (fixer a.1 n, decide (0 ≤ a.1 ∧ a.1 < (n : ℤ)), a.2))
    ((coords.zip sizes).map fun p => (interpCandidates interp p.1, p.2))
  simp only [List.map_map] at h
  exact h

lemma extractSum_constant_spec (srcD : MxDtype) (src : List ℤ → ℚ)
    (fixer : ℤ → ℤ → ℤ) (interp : InterpOrder) (coords : List MxScalar)
    (sizes : List ℕ) (fill : PyScalar) (hlen : coords.length = sizes.length) :
    (extractSum srcD src fixer interp coords sizes fill true).val =
      extractMaskedSpec src fixer interp coords sizes fill.val := by
  rw [extractSum_val, extractCands_combos,
    List.map_snd_zip coords sizes (le_of_eq hlen.symm)]
  unfold extractMaskedSpec
  rw [List.map_map]
  refine congrArg List.sum (List.map_congr_left fun comb hcomb => ?_)
  have hlencomb : comb.length ≤ sizes.length := by
    have := combos_length _ comb hcomb
    simp only [List.length_map, List.length_zip, hlen, min_self] at this
    omega
  simp only [Function.comp, combTerm_val, if_true, List.map_map]
  congr 1
  · rw [all_map_id]
    rfl
  · conv_rhs => rw [← List.map_fst_zip comb sizes hlencomb, List.map_map]
    rfl

/-- C1: the resampler substitutes the fill value exactly under constant-mode
masking.  (i) For every fill mode other than `constant` (so
`check_validity = false` in `map_coordinates`), the result never depends on
the fill value — no substitution ever occurs.  (ii) Under `check_validity`
(i.e. `constant`), the accumulated sum equals the spec-side description: each
combination's gathered contribution is replaced by the fill value exactly
where at least one axis's raw candidate index fails `0 ≤ raw < size`,
evaluated on the unfixed index. -/
theorem constant_masking_semantics :
    (∀ (srcD : MxDtype) (src : List ℤ → ℚ) (sizes : List ℕ) (coords : List MxScalar)
        (order : ℕ) (fill_mode : String) (f1 f2 : PyScalar),
      fill_mode ≠ "constant" →
      map_coordinates_elem srcD src sizes coords order fill_mode f1 =
        map_coordinates_elem srcD src sizes coords order fill_mode f2) ∧
    (∀ (srcD : MxDtype) (src : List ℤ → ℚ) (fixer : ℤ → ℤ → ℤ)
        (interp : InterpOrder) (coords : List MxScalar) (sizes : List ℕ)
        (fill : PyScalar),
      coords.length = sizes.length →
      (extractSum srcD src fixer interp coords sizes fill true).val =
        extractMaskedSpec src fixer interp coords sizes fill.val) := by
  constructor
  · intro srcD src sizes coords order fill_mode f1 f2 h
    have hc : decide (fill_mode = "constant") = false := decide_eq_false h
    by_cases hlen : coords.length = sizes.length
    · rcases hfix : INDEX_FIXERS fill_mode with _ | fixer0
      · simp [map_coordinates_elem, hlen, hfix]
      · rcases horder : (if order = 0 then some InterpOrder.nearest
            else if order = 1 then some InterpOrder.linear else none) with _ | interp0
        · simp [map_coordinates_elem, hlen, hfix, horder]
        · by_cases hbound : extractInBounds fixer0 interp0 coords sizes = true
          · simp only [map_coordinates_elem, hlen, hfix, horder, hbound, hc,
              if_false, ite_not, if_true, ne_eq, not_true_eq_false,
              decide_not]
            simp [hlen, hbound]
            exact extract_coordinates_fill_irrel srcD src fixer0 interp0 coords sizes _ _
          · simp [map_coordinates_elem, hlen, hfix, horder, hbound]
    · simp [map_coordinates_elem, hlen]
  · intro srcD src fixer interp coords sizes fill hlen
    exact extractSum_constant_spec srcD src fixer interp coords sizes fill hlen

theorem constant_masking_semantics_witness :
    map_coordinates_elem .float32 (fun _ => (7 : ℚ)) [3] [⟨.float32, -1⟩] 1 "reflect"
        (.pyInt 0) =
      map_coordinates_elem .float32 (fun _ => (7 : ℚ)) [3] [⟨.float32, -1⟩] 1 "reflect"
        (.pyFloat 99) ∧
    (extractSum .float32 (fun _ => (7 : ℚ)) (fun index size => clip index 0 (size - 1))
        .linear [⟨.float32, -1⟩] [3] (.pyInt 5) true).val =
      extractMaskedSpec (fun _ => (7 : ℚ)) (fun index size => clip index 0 (size - 1))
        .linear [⟨.float32, -1⟩] [3] ((PyScalar.pyInt 5).val) :=
  ⟨constant_masking_semantics.1 .float32 (fun _ => (7 : ℚ)) [3] [⟨.float32, -1⟩] 1
      "reflect" (.pyInt 0) (.pyFloat 99) (by decide),
    constant_masking_semantics.2 .float32 (fun _ => (7 : ℚ))
      (fun index size => clip index 0 (size - 1)) .linear [⟨.float32, -1⟩] [3]
      (.pyInt 5) rfl⟩
